import Mathlib

/-!
Verification of the spotify2tidal matching engine.

This file gives a shallow embedding, in Lean 4, of the matching core of the
spotify2tidal repository: the similarity library
(apps/web/src/lib/utils/stringUtils.ts), the match cache
(apps/web/src/lib/storage/CacheStore.ts), the track, album and artist
matchers (apps/web/src/lib/services/matching/TrackMatcher.ts,
AlbumMatcher.ts, and the ArtistMatcher), the batch drivers, and the
rate limiter (apps/web/src/lib/utils/rateLimiter.ts).

JavaScript numbers are modelled as rationals, fallible asynchronous
operations as Except-valued functions, and the external Tidal catalog
client as a record of pure query functions.  Outbound catalog calls are
made observable by having each matcher return the list of calls it issued.
-/

set_option autoImplicit false

namespace Spotify2Tidal

deriving instance DecidableEq for Except

/-! ## Similarity library (stringUtils.ts) -/

/-- The character class matched by the JavaScript regex `\s`
(whitespace, used by `replace(/\s+/g, ' ')` inside `normalizeString`). -/
def jsWhitespace (c : Char) : Bool :=
  c = ' ' ∨ c = '\t' ∨ c = '\n' ∨ c.val = 0x0b ∨ c.val = 0x0c ∨ c = '\r' ∨
  c.val = 0xa0 ∨ c.val = 0x1680 ∨ (0x2000 ≤ c.val ∧ c.val ≤ 0x200a) ∨
  c.val = 0x2028 ∨ c.val = 0x2029 ∨ c.val = 0x202f ∨ c.val = 0x205f ∨
  c.val = 0x3000 ∨ c.val = 0xfeff

/-- Characters kept by `replace(/[^a-z0-9\s]/g, '')` (applied after
`toLowerCase()`): lowercase ASCII letters, digits, and `\s` whitespace. -/
def keptByNormalize (c : Char) : Bool :=
  ('a' ≤ c ∧ c ≤ 'z') ∨ ('0' ≤ c ∧ c ≤ '9') ∨ jsWhitespace c

/-- One pass realizing `replace(/\s+/g, ' ')`: every maximal run of `\s`
characters is replaced by a single space.  The boolean flag records whether
the previous character was part of a whitespace run. -/
def collapseWsAux : Bool → List Char → List Char
  | _, [] => []
  | prevWs, c :: cs =>
    if jsWhitespace c then
      if prevWs then collapseWsAux true cs
      else ' ' :: collapseWsAux true cs
    else c :: collapseWsAux false cs

def collapseWs (l : List Char) : List Char := collapseWsAux false l

/-- JavaScript `String.prototype.trim()`: strip leading and trailing `\s`. -/
def trimWs (l : List Char) : List Char :=
  ((l.dropWhile jsWhitespace).reverse.dropWhile jsWhitespace).reverse

/-- `normalizeString` from stringUtils.ts:
`str.toLowerCase().replace(/[^a-z0-9\s]/g, '').replace(/\s+/g, ' ').trim()`. -/
def normalizeString (s : String) : String :=
  ⟨trimWs (collapseWs ((s.data.map Char.toLower).filter keptByNormalize))⟩

/-- `levenshteinDistance` from stringUtils.ts.  The source fills a
dynamic-programming matrix with
`matrix[i][j] = min(matrix[i-1][j] + 1, matrix[i][j-1] + 1, matrix[i-1][j-1] + cost)`
and borders `matrix[i][0] = i`, `matrix[0][j] = j`; this recursion computes
exactly that recurrence on the two suffixes. -/
def lev : List Char → List Char → Nat
  | [], ys => ys.length
  | x :: xs, [] => (x :: xs).length
  | x :: xs, y :: ys =>
    min (lev xs (y :: ys) + 1)
      (min (lev (x :: xs) ys + 1)
        (lev xs ys + (if x = y then 0 else 1)))
termination_by xs ys => xs.length + ys.length

def levenshteinDistance (str1 str2 : String) : Nat :=
  lev str1.data str2.data

/-- `stringSimilarity` from stringUtils.ts: normalize both inputs; `1` if the
normalized strings are equal; `0` if either normalized string is empty;
otherwise `1 - distance / maxLength`. -/
def stringSimilarity (str1 str2 : String) : ℚ :=
  let normalized1 := normalizeString str1
  let normalized2 := normalizeString str2
  if normalized1 = normalized2 then 1
  else if normalized1.length = 0 ∨ normalized2.length = 0 then 0
  else
    let maxLength := max normalized1.length normalized2.length
    let distance := levenshteinDistance normalized1 normalized2
    1 - (distance : ℚ) / (maxLength : ℚ)

/-- `isDurationSimilar` from stringUtils.ts (durations in integral
milliseconds, tolerance in seconds, default 2):
`|d1 - d2| ≤ toleranceSeconds * 1000`. -/
def isDurationSimilar (duration1 duration2 : Int) (toleranceSeconds : Int := 2) : Bool :=
  |duration1 - duration2| ≤ toleranceSeconds * 1000

/-- Restatement of the spec's description of `similarity(a, b)` (§4.1), used
to check the code against the spec's branch-by-branch account. -/
def similaritySpec (a b : String) : ℚ :=
  if normalizeString a = normalizeString b then 1
  else if (normalizeString a).length = 0 ∨ (normalizeString b).length = 0 then 0
  else 1 - (levenshteinDistance (normalizeString a) (normalizeString b) : ℚ) /
    ((max (normalizeString a).length (normalizeString b).length : ℕ) : ℚ)

/-! ## Data model (packages/types/src/spotify.ts, tidal.ts)

Only the fields read by the matching engine are carried; identifiers and
display fields unused by the matchers (uri, external urls, images, covers,
explicit flags) are omitted. -/

structure SpotifyArtist where
  name : String
deriving DecidableEq

structure SpotifyAlbum where
  name : String
  artists : List SpotifyArtist
  release_date : String
deriving DecidableEq

structure SpotifyTrack where
  id : String
  name : String
  artists : List SpotifyArtist
  album : Option SpotifyAlbum
  isrc : Option String
  duration_ms : Int
deriving DecidableEq

structure TidalArtist where
  id : String
  name : String
deriving DecidableEq

structure TidalAlbum where
  id : String
  title : String
  artists : List TidalArtist
  releaseDate : String
deriving DecidableEq

structure TidalTrack where
  id : String
  title : String
  artist : TidalArtist
  artists : List TidalArtist
  album : Option TidalAlbum
  duration : Int
deriving DecidableEq

inductive MatchStatus
  | matched
  | unmatched
deriving DecidableEq

/-- The `method` strings of the source: `isrc` (the spec's `unique_id`),
`exact`, `fuzzy`, `unmatched`. -/
inductive MatchMethod
  | isrc
  | exact
  | fuzzy
  | unmatched
deriving DecidableEq

structure TrackMatchResult where
  spotifyTrack : SpotifyTrack
  tidalTrack : Option TidalTrack
  status : MatchStatus
  method : MatchMethod
  confidence : ℚ
  suggestions : Option (List TidalTrack) := none
deriving DecidableEq

structure AlbumMatchResult where
  spotifyAlbum : SpotifyAlbum
  tidalAlbum : Option TidalAlbum
  status : MatchStatus
  method : MatchMethod
  confidence : ℚ
deriving DecidableEq

structure ArtistMatchResult where
  spotifyArtist : SpotifyArtist
  tidalArtist : Option TidalArtist
  status : MatchStatus
  method : MatchMethod
  confidence : ℚ
deriving DecidableEq

/-! ## Catalog client (lib/services/tidal/TidalClient.ts, consumed as an
external collaborator).  A call record makes outbound traffic observable. -/

inductive CatalogCall
  | getTrackByISRC (isrc : String)
  | searchTracks (query : String) (limit : Nat)
  | searchAlbums (query : String) (limit : Nat)
  | searchArtists (query : String) (limit : Nat)
deriving DecidableEq

structure TidalClient where
  getTrackByISRC : String → Option TidalTrack
  searchTracks : String → Nat → List TidalTrack
  searchAlbums : String → Nat → List TidalAlbum
  searchArtists : String → Nat → List TidalArtist

/-! ## Match cache (lib/storage/CacheStore.ts)

The IndexedDB object store keyed by `spotifyTrackId` with a non-unique
index on `isrc`; `put` is replace-by-key.  Failure of the durable store is
modelled by the `CacheFlags` switches: a false flag makes the corresponding
operation reject, exactly as the promise-based store rejects when IndexedDB
is unavailable. -/

structure CacheEntry where
  spotifyTrackId : String
  isrc : Option String
  tidalTrack : Option TidalTrack
  matchMethod : MatchMethod
  confidence : ℚ
  cachedAt : Nat
deriving DecidableEq

abbrev Cache := List CacheEntry

def getMatchByTrackId (cache : Cache) (spotifyTrackId : String) : Option CacheEntry :=
  cache.find? (fun e => e.spotifyTrackId = spotifyTrackId)

/-- Entries whose `isrc` is null are absent from the IndexedDB index, so an
index lookup only ever returns an entry with `isrc = some code`. -/
def getMatchByISRC (cache : Cache) (isrc : String) : Option CacheEntry :=
  cache.find? (fun e => e.isrc = some isrc)

/-- `objectStore.put` with keyPath `spotifyTrackId`: replace-by-key
(last write wins). -/
def saveMatchEntry (cache : Cache) (e : CacheEntry) : Cache :=
  e :: cache.filter (fun x => ¬ x.spotifyTrackId = e.spotifyTrackId)

/-- Availability of the durable store for this invocation: `lookupOk` covers
`getMatchByTrackId` and `getMatchByISRC`, `saveOk` covers `saveMatch`. -/
structure CacheFlags where
  lookupOk : Bool
  saveOk : Bool
deriving DecidableEq

/-! ## Track matcher (lib/services/matching/TrackMatcher.ts)

The title-variant stripper `cleanTrackTitle` (a pure `String → String`
function built from a fixed list of regex replacements) is taken as a
parameter; every theorem below holds for an arbitrary such function, hence
in particular for the one in stringUtils.ts. -/

def CONFIDENCE_THRESHOLD_LOW : ℚ := 0.70
def WEIGHT_TITLE : ℚ := 0.5
def WEIGHT_ARTIST : ℚ := 0.3
def WEIGHT_DURATION : ℚ := 0.1
def WEIGHT_ALBUM : ℚ := 0.1

/-- `artists[0].name`.  The source indexes without an emptiness check;
matching inputs always carry at least one artist, and the empty case is
modelled as the empty string. -/
def primaryArtistName (artists : List SpotifyArtist) : String :=
  match artists with
  | [] => ""
  | a :: _ => a.name

namespace TrackMatcher

def isExactMatch (cleanTrackTitle : String → String)
    (spotifyTrack : SpotifyTrack) (tidalTrack : TidalTrack) : Bool :=
  let spotifyTitle := normalizeString (cleanTrackTitle spotifyTrack.name)
  let tidalTitle := normalizeString (cleanTrackTitle tidalTrack.title)
  if ¬ spotifyTitle = tidalTitle then false
  else
    let spotifyArtist := normalizeString (primaryArtistName spotifyTrack.artists)
    let tidalArtist := normalizeString tidalTrack.artist.name
    if ¬ spotifyArtist = tidalArtist ∧
        ¬ (tidalTrack.artists.map (fun a => normalizeString a.name)).contains spotifyArtist then
      false
    else
      isDurationSimilar spotifyTrack.duration_ms tidalTrack.duration

def calculateConfidence (cleanTrackTitle : String → String)
    (spotifyTrack : SpotifyTrack) (tidalTrack : TidalTrack) : ℚ :=
  let titleScore :=
    stringSimilarity (cleanTrackTitle spotifyTrack.name) (cleanTrackTitle tidalTrack.title)
  let artistScore :=
    stringSimilarity (primaryArtistName spotifyTrack.artists) tidalTrack.artist.name
  let durationDiff := |spotifyTrack.duration_ms - tidalTrack.duration|
  let durationScore : ℚ :=
    if isDurationSimilar spotifyTrack.duration_ms tidalTrack.duration 5 then 1
    else max 0 (1 - (durationDiff : ℚ) / 30000)
  let albumScore : ℚ :=
    match spotifyTrack.album, tidalTrack.album with
    | some spotifyAlbum, some tidalAlbum => stringSimilarity spotifyAlbum.name tidalAlbum.title
    | _, _ => 0.5
  titleScore * WEIGHT_TITLE + artistScore * WEIGHT_ARTIST +
    durationScore * WEIGHT_DURATION + albumScore * WEIGHT_ALBUM

/-- `matchByISRC`: JavaScript treats the empty string as falsy, so the
lookup only happens for a present, non-empty code. -/
def matchByISRC (client : TidalClient) (spotifyTrack : SpotifyTrack) :
    Option TrackMatchResult × List CatalogCall :=
  match spotifyTrack.isrc with
  | none => (none, [])
  | some code =>
    if code = "" then (none, [])
    else
      match client.getTrackByISRC code with
      | some tidalTrack =>
        (some { spotifyTrack, tidalTrack := some tidalTrack, status := .matched,
                method := .isrc, confidence := 1 },
         [.getTrackByISRC code])
      | none => (none, [.getTrackByISRC code])

def matchByExactMetadata (client : TidalClient) (cleanTrackTitle : String → String)
    (spotifyTrack : SpotifyTrack) : Option TrackMatchResult × List CatalogCall :=
  let query := spotifyTrack.name ++ " " ++ primaryArtistName spotifyTrack.artists
  let searchResults := client.searchTracks query 10
  let calls := [CatalogCall.searchTracks query 10]
  if searchResults.length = 0 then (none, calls)
  else
    match searchResults.find? (fun tidalTrack => isExactMatch cleanTrackTitle spotifyTrack tidalTrack) with
    | some tidalTrack =>
      (some { spotifyTrack, tidalTrack := some tidalTrack, status := .matched,
              method := .exact, confidence := 0.99 },
       calls)
    | none => (none, calls)

/-- `matchByFuzzyMetadata`: score all results, sort descending by confidence
(JavaScript `Array.prototype.sort` is stable, modelled by a stable merge
sort), and accept the best result iff its score reaches the low floor. -/
def matchByFuzzyMetadata (client : TidalClient) (cleanTrackTitle : String → String)
    (spotifyTrack : SpotifyTrack) : Option TrackMatchResult × List CatalogCall :=
  let query := spotifyTrack.name ++ " " ++ primaryArtistName spotifyTrack.artists
  let searchResults := client.searchTracks query 20
  let calls := [CatalogCall.searchTracks query 20]
  if searchResults.length = 0 then (none, calls)
  else
    let scoredResults := searchResults.map
      (fun tidalTrack => (tidalTrack, calculateConfidence cleanTrackTitle spotifyTrack tidalTrack))
    let sorted := scoredResults.mergeSort (fun a b => b.2 ≤ a.2)
    match sorted with
    | [] => (none, calls)
    | bestMatch :: _ =>
      if bestMatch.2 ≥ CONFIDENCE_THRESHOLD_LOW then
        (some { spotifyTrack, tidalTrack := some bestMatch.1, status := .matched,
                method := .fuzzy, confidence := bestMatch.2 },
         calls)
      else (none, calls)

def getSuggestions (client : TidalClient) (spotifyTrack : SpotifyTrack) :
    List TidalTrack × List CatalogCall :=
  let query := spotifyTrack.name ++ " " ++ primaryArtistName spotifyTrack.artists
  (client.searchTracks query 5, [CatalogCall.searchTracks query 5])

/-- The result `checkCache` rebuilds from a cache entry: status is derived
from the nullness of the cached target; no suggestions are restored. -/
def resultFromCache (spotifyTrack : SpotifyTrack) (cached : CacheEntry) : TrackMatchResult :=
  { spotifyTrack, tidalTrack := cached.tidalTrack,
    status := if cached.tidalTrack.isSome then .matched else .unmatched,
    method := cached.matchMethod, confidence := cached.confidence }

/-- `checkCache`: id lookup first, then the ISRC index when the track has a
truthy code; any lookup failure is caught and treated as a miss. -/
def checkCache (flags : CacheFlags) (cache : Cache) (spotifyTrack : SpotifyTrack) :
    Option TrackMatchResult :=
  if ¬ flags.lookupOk then none
  else
    match getMatchByTrackId cache spotifyTrack.id with
    | some cached => some (resultFromCache spotifyTrack cached)
    | none =>
      match spotifyTrack.isrc with
      | some code =>
        if code = "" then none
        else
          match getMatchByISRC cache code with
          | some cachedByISRC => some (resultFromCache spotifyTrack cachedByISRC)
          | none => none
      | none => none

def toCacheEntry (r : TrackMatchResult) (now : Nat) : CacheEntry :=
  { spotifyTrackId := r.spotifyTrack.id, isrc := r.spotifyTrack.isrc,
    tidalTrack := r.tidalTrack, matchMethod := r.method,
    confidence := r.confidence, cachedAt := now }

/-- Steps 1–4 of the waterfall (ISRC, exact, fuzzy, unmatched-with-
suggestions), without the cache: the winning tier's result together with the
outbound calls issued up to and including the winning tier.  In the source,
whichever tier wins is followed immediately by the single
`CacheStore.saveMatch` of the returned result; `matchTrack` below performs
that one save on whatever this function returns, which gives the same
observable result, cache and call trace. -/
def matchFresh (client : TidalClient) (cleanTrackTitle : String → String)
    (spotifyTrack : SpotifyTrack) (includeSuggestions : Bool) :
    TrackMatchResult × List CatalogCall :=
  let (isrcMatch, calls1) := matchByISRC client spotifyTrack
  match isrcMatch with
  | some r => (r, calls1)
  | none =>
    let (exactMatch, calls2) := matchByExactMetadata client cleanTrackTitle spotifyTrack
    match exactMatch with
    | some r => (r, calls1 ++ calls2)
    | none =>
      let (fuzzyMatch, calls3) := matchByFuzzyMetadata client cleanTrackTitle spotifyTrack
      let step4 : List CatalogCall → TrackMatchResult × List CatalogCall :=
        fun callsSoFar =>
          let (suggestions, calls4) :=
            if includeSuggestions then getSuggestions client spotifyTrack else ([], [])
          ({ spotifyTrack, tidalTrack := none, status := .unmatched,
             method := .unmatched, confidence := 0,
             suggestions := if suggestions.length > 0 then some suggestions else none },
           callsSoFar ++ calls4)
      match fuzzyMatch with
      | some r =>
        if r.confidence ≥ CONFIDENCE_THRESHOLD_LOW then (r, calls1 ++ calls2 ++ calls3)
        else step4 (calls1 ++ calls2 ++ calls3)
      | none => step4 (calls1 ++ calls2 ++ calls3)

/-- `matchTrack`: cache check, then the waterfall, then the cache write of
the winning result.  `now` is the clock value used for `cachedAt`.  Every
`CacheStore.saveMatch` await is outside any try/catch in the source, so a
failing save (`saveOk = false`) rejects the whole invocation, modelled by
`Except.error`. -/
def matchTrack (client : TidalClient) (cleanTrackTitle : String → String)
    (flags : CacheFlags) (now : Nat) (cache : Cache) (spotifyTrack : SpotifyTrack)
    (includeSuggestions : Bool := true) :
    Except Unit (TrackMatchResult × Cache × List CatalogCall) :=
  match checkCache flags cache spotifyTrack with
  | some cachedMatch => .ok (cachedMatch, cache, [])
  | none =>
    let (r, calls) := matchFresh client cleanTrackTitle spotifyTrack includeSuggestions
    if flags.saveOk then .ok (r, saveMatchEntry cache (toCacheEntry r now), calls)
    else .error ()

end TrackMatcher

/-! ## Batch drivers

The observable events of a batch run: a progress-callback invocation
(`current`, `total`, optional label) and the completion of one entity's
match, in the order in which they happen. -/

inductive BatchEvent (ρ : Type)
  | progress (current total : Nat) (label : Option String)
  | completed (index : Nat) (result : ρ)
deriving DecidableEq

namespace TrackMatcher

/-- Body of the `matchTracks` loop: for each track, the source first invokes
`onProgress?.(i + 1, total, track.name)` and only then awaits
`this.matchTrack(track)`, so the progress event precedes the completion
event of the same entity.  A rejected `matchTrack` (failing cache save)
rejects the whole batch. -/
def matchTracksGo (client : TidalClient) (cleanTrackTitle : String → String)
    (flags : CacheFlags) (now : Nat) (total : Nat) :
    List SpotifyTrack → Nat → Cache →
    Except Unit (List TrackMatchResult × Cache × List (BatchEvent TrackMatchResult))
  | [], _, cache => .ok ([], cache, [])
  | track :: rest, i, cache =>
    match matchTrack client cleanTrackTitle flags now cache track with
    | .error e => .error e
    | .ok (r, cache2, _calls) =>
      match matchTracksGo client cleanTrackTitle flags now total rest (i + 1) cache2 with
      | .error e => .error e
      | .ok (results, cache3, events) =>
        .ok (r :: results, cache3,
          .progress (i + 1) total (some track.name) :: .completed i r :: events)

def matchTracks (client : TidalClient) (cleanTrackTitle : String → String)
    (flags : CacheFlags) (now : Nat) (spotifyTracks : List SpotifyTrack) (cache : Cache) :
    Except Unit (List TrackMatchResult × Cache × List (BatchEvent TrackMatchResult)) :=
  matchTracksGo client cleanTrackTitle flags now spotifyTracks.length spotifyTracks 0 cache

end TrackMatcher

/-! ## Album matcher (lib/services/matching/AlbumMatcher.ts)

No cache is consulted or written anywhere in this class. -/

def ALBUM_WEIGHT_TITLE : ℚ := 0.6
def ALBUM_WEIGHT_ARTIST : ℚ := 0.3
def ALBUM_WEIGHT_RELEASE_YEAR : ℚ := 0.1

/-- JavaScript `substring(0, 4)`. -/
def substringFirst4 (s : String) : String :=
  ⟨s.data.take 4⟩

/-- JavaScript `parseInt` as applied to a year prefix: a maximal leading run
of ASCII digits, `NaN` (here `none`) when there is none. -/
def jsParseIntPrefix (s : String) : Option Int :=
  let digits := s.data.takeWhile (fun c => '0' ≤ c ∧ c ≤ '9')
  if digits = [] then none
  else some (digits.foldl (fun acc c => acc * 10 + ((c.toNat : Int) - (('0' : Char).toNat : Int))) 0)

namespace AlbumMatcher

/-- `isExactMatch` for albums: normalized title equality, primary Spotify
artist among the candidate's artists, and — when both date strings are
truthy — release years within one.  A `NaN` year makes the JavaScript
comparison `Math.abs(sy - ty) > 1` false, so parsing failure never
rejects. -/
def isExactMatch (spotifyAlbum : SpotifyAlbum) (tidalAlbum : TidalAlbum) : Bool :=
  let spotifyTitle := normalizeString spotifyAlbum.name
  let tidalTitle := normalizeString tidalAlbum.title
  if ¬ spotifyTitle = tidalTitle then false
  else
    let spotifyArtist := normalizeString (primaryArtistName spotifyAlbum.artists)
    let tidalArtistNames := tidalAlbum.artists.map (fun a => normalizeString a.name)
    if ¬ tidalArtistNames.contains spotifyArtist then false
    else
      if ¬ spotifyAlbum.release_date = "" ∧ ¬ tidalAlbum.releaseDate = "" then
        match jsParseIntPrefix (substringFirst4 spotifyAlbum.release_date),
            jsParseIntPrefix (substringFirst4 tidalAlbum.releaseDate) with
        | some spotifyYear, some tidalYear =>
          if |spotifyYear - tidalYear| > 1 then false else true
        | _, _ => true
      else true

/-- Fuzzy confidence for albums.  `Math.max(...artistScores)` over the
candidate's artist list; search candidates always carry at least one artist,
and the degenerate empty list (JavaScript `-Infinity`) is modelled as 0. -/
def calculateConfidence (spotifyAlbum : SpotifyAlbum) (tidalAlbum : TidalAlbum) : ℚ :=
  let titleScore := stringSimilarity spotifyAlbum.name tidalAlbum.title
  let spotifyArtist := primaryArtistName spotifyAlbum.artists
  let artistScores := tidalAlbum.artists.map
    (fun tidalArtist => stringSimilarity spotifyArtist tidalArtist.name)
  let artistScore := (artistScores.max?).getD 0
  let releaseYearScore : ℚ :=
    if ¬ spotifyAlbum.release_date = "" ∧ ¬ tidalAlbum.releaseDate = "" then
      match jsParseIntPrefix (substringFirst4 spotifyAlbum.release_date),
          jsParseIntPrefix (substringFirst4 tidalAlbum.releaseDate) with
      | some spotifyYear, some tidalYear =>
        let yearDiff := |spotifyYear - tidalYear|
        if yearDiff = 0 then 1
        else if yearDiff = 1 then 0.9
        else if yearDiff ≤ 3 then 0.7
        else 0.3
      | _, _ => 0.3
    else 0.5
  titleScore * ALBUM_WEIGHT_TITLE + artistScore * ALBUM_WEIGHT_ARTIST +
    releaseYearScore * ALBUM_WEIGHT_RELEASE_YEAR

def matchByExactMetadata (client : TidalClient) (spotifyAlbum : SpotifyAlbum) :
    Option AlbumMatchResult × List CatalogCall :=
  let query := spotifyAlbum.name ++ " " ++ primaryArtistName spotifyAlbum.artists
  let searchResults := client.searchAlbums query 10
  let calls := [CatalogCall.searchAlbums query 10]
  if searchResults.length = 0 then (none, calls)
  else
    match searchResults.find? (fun tidalAlbum => isExactMatch spotifyAlbum tidalAlbum) with
    | some tidalAlbum =>
      (some { spotifyAlbum, tidalAlbum := some tidalAlbum, status := .matched,
              method := .exact, confidence := 0.99 },
       calls)
    | none => (none, calls)

def matchByFuzzyMetadata (client : TidalClient) (spotifyAlbum : SpotifyAlbum) :
    Option AlbumMatchResult × List CatalogCall :=
  let query := spotifyAlbum.name ++ " " ++ primaryArtistName spotifyAlbum.artists
  let searchResults := client.searchAlbums query 20
  let calls := [CatalogCall.searchAlbums query 20]
  if searchResults.length = 0 then (none, calls)
  else
    let scoredResults := searchResults.map
      (fun tidalAlbum => (tidalAlbum, calculateConfidence spotifyAlbum tidalAlbum))
    let sorted := scoredResults.mergeSort (fun a b => b.2 ≤ a.2)
    match sorted with
    | [] => (none, calls)
    | bestMatch :: _ =>
      if bestMatch.2 ≥ CONFIDENCE_THRESHOLD_LOW then
        (some { spotifyAlbum, tidalAlbum := some bestMatch.1, status := .matched,
                method := .fuzzy, confidence := bestMatch.2 },
         calls)
      else (none, calls)

/-- `matchAlbum`: exact tier, fuzzy tier, unmatched.  Unlike `matchTrack`
there is no cache step and no cache write; the function is pure in the
search catalog. -/
def matchAlbum (client : TidalClient) (spotifyAlbum : SpotifyAlbum) :
    AlbumMatchResult × List CatalogCall :=
  let (exactMatch, calls1) := matchByExactMetadata client spotifyAlbum
  match exactMatch with
  | some r => (r, calls1)
  | none =>
    let (fuzzyMatch, calls2) := matchByFuzzyMetadata client spotifyAlbum
    match fuzzyMatch with
    | some r =>
      if r.confidence ≥ CONFIDENCE_THRESHOLD_LOW then (r, calls1 ++ calls2)
      else
        ({ spotifyAlbum, tidalAlbum := none, status := .unmatched,
           method := .unmatched, confidence := 0 }, calls1 ++ calls2)
    | none =>
      ({ spotifyAlbum, tidalAlbum := none, status := .unmatched,
         method := .unmatched, confidence := 0 }, calls1 ++ calls2)

/-- `matchAlbums`: the album batch loop; `onProgress?.(i + 1, total)` (no
label) fires before `matchAlbum` is awaited. -/
def matchAlbumsGo (client : TidalClient) (total : Nat) :
    List SpotifyAlbum → Nat → List AlbumMatchResult × List (BatchEvent AlbumMatchResult)
  | [], _ => ([], [])
  | album :: rest, i =>
    let (r, _calls) := matchAlbum client album
    let (results, events) := matchAlbumsGo client total rest (i + 1)
    (r :: results, .progress (i + 1) total none :: .completed i r :: events)

def matchAlbums (client : TidalClient) (spotifyAlbums : List SpotifyAlbum) :
    List AlbumMatchResult × List (BatchEvent AlbumMatchResult) :=
  matchAlbumsGo client spotifyAlbums.length spotifyAlbums 0

end AlbumMatcher

/-! ## Artist matcher (ArtistMatcher, same source file as TrackMatcher)

Again no cache anywhere, and the exact tier fixes confidence 1.0. -/

namespace ArtistMatcher

def matchByExactName (client : TidalClient) (spotifyArtist : SpotifyArtist) :
    Option ArtistMatchResult × List CatalogCall :=
  let searchResults := client.searchArtists spotifyArtist.name 10
  let calls := [CatalogCall.searchArtists spotifyArtist.name 10]
  if searchResults.length = 0 then (none, calls)
  else
    let normalizedSpotifyName := normalizeString spotifyArtist.name
    match searchResults.find?
        (fun tidalArtist => normalizedSpotifyName = normalizeString tidalArtist.name) with
    | some tidalArtist =>
      (some { spotifyArtist, tidalArtist := some tidalArtist, status := .matched,
              method := .exact, confidence := 1 },
       calls)
    | none => (none, calls)

def matchByFuzzyName (client : TidalClient) (spotifyArtist : SpotifyArtist) :
    Option ArtistMatchResult × List CatalogCall :=
  let searchResults := client.searchArtists spotifyArtist.name 20
  let calls := [CatalogCall.searchArtists spotifyArtist.name 20]
  if searchResults.length = 0 then (none, calls)
  else
    let scoredResults := searchResults.map
      (fun tidalArtist => (tidalArtist, stringSimilarity spotifyArtist.name tidalArtist.name))
    let sorted := scoredResults.mergeSort (fun a b => b.2 ≤ a.2)
    match sorted with
    | [] => (none, calls)
    | bestMatch :: _ =>
      if bestMatch.2 ≥ CONFIDENCE_THRESHOLD_LOW then
        (some { spotifyArtist, tidalArtist := some bestMatch.1, status := .matched,
                method := .fuzzy, confidence := bestMatch.2 },
         calls)
      else (none, calls)

def matchArtist (client : TidalClient) (spotifyArtist : SpotifyArtist) :
    ArtistMatchResult × List CatalogCall :=
  let (exactMatch, calls1) := matchByExactName client spotifyArtist
  match exactMatch with
  | some r => (r, calls1)
  | none =>
    let (fuzzyMatch, calls2) := matchByFuzzyName client spotifyArtist
    match fuzzyMatch with
    | some r =>
      if r.confidence ≥ CONFIDENCE_THRESHOLD_LOW then (r, calls1 ++ calls2)
      else
        ({ spotifyArtist, tidalArtist := none, status := .unmatched,
           method := .unmatched, confidence := 0 }, calls1 ++ calls2)
    | none =>
      ({ spotifyArtist, tidalArtist := none, status := .unmatched,
         method := .unmatched, confidence := 0 }, calls1 ++ calls2)

def matchArtistsGo (client : TidalClient) (total : Nat) :
    List SpotifyArtist → Nat → List ArtistMatchResult × List (BatchEvent ArtistMatchResult)
  | [], _ => ([], [])
  | artist :: rest, i =>
    let (r, _calls) := matchArtist client artist
    let (results, events) := matchArtistsGo client total rest (i + 1)
    (r :: results, .progress (i + 1) total none :: .completed i r :: events)

def matchArtists (client : TidalClient) (spotifyArtists : List SpotifyArtist) :
    List ArtistMatchResult × List (BatchEvent ArtistMatchResult) :=
  matchArtistsGo client spotifyArtists.length spotifyArtists 0

end ArtistMatcher

/-! ## Rate limiter (lib/utils/rateLimiter.ts)

`processQueue` is an asynchronous drain loop: while the queue is nonempty it
sleeps `max(0, minInterval - (now - lastExecutionTime))` with
`minInterval = 1000 / requestsPerSecond` (milliseconds), splices off the
first `burstSize` entries, awaits them together, and sets
`lastExecutionTime = Date.now()` after the burst.

The model below computes the dispatch schedule as a list of
`(dispatch time, burst)` pairs, in milliseconds on a rational clock.
`durs k` is the wall-clock duration of the `k`-th burst's `Promise.all`
(nonnegative in every theorem).  Sleeps are exact and the loop body itself
takes no time.  Recursion is driven by a fuel argument equal to the initial
queue length; one fuel unit is spent per burst, which suffices whenever
`burstSize ≥ 1` (with `burstSize = 0` the source loop never terminates, and
every theorem assumes a positive burst size). -/

def processQueueAux {α : Type} (burstSize : Nat) (minInterval : ℚ) :
    Nat → (Nat → ℚ) → List α → ℚ → ℚ → List (ℚ × List α)
  | _, _, [], _, _ => []
  | 0, _, _ :: _, _, _ => []
  | fuel + 1, durs, queue@(_ :: _), lastExecutionTime, now =>
    let delay := max 0 (minInterval - (now - lastExecutionTime))
    let t := now + delay
    let burst := queue.take burstSize
    let after := t + durs 0
    (t, burst) ::
      processQueueAux burstSize minInterval fuel (fun k => durs (k + 1))
        (queue.drop burstSize) after after

def processQueue {α : Type} (burstSize : Nat) (minInterval : ℚ) (durs : Nat → ℚ)
    (queue : List α) (lastExecutionTime now : ℚ) : List (ℚ × List α) :=
  processQueueAux burstSize minInterval queue.length durs queue lastExecutionTime now

/-- Ceiling division, `⌈n / b⌉`, the number of bursts a queue of `n`
operations needs at burst size `b`. -/
def ceilDiv (n b : Nat) : Nat := (n + b - 1) / b

/-! ## Promise settlement (RateLimiter.execute / clearQueue)

`execute` pushes `{ operation, resolve, reject }` and returns the new
promise; `processQueue` settles (resolves or rejects) exactly the entries it
splices off the queue; `clearQueue` replaces the queue by `[]` without
touching the stored `resolve`/`reject` callbacks.  The model tracks, by
operation id, which promises have been settled. -/

structure RLState where
  queue : List Nat
  settled : List Nat
deriving DecidableEq

inductive RLEvent
  | execute (id : Nat)
  | dispatchBurst (burstSize : Nat)
  | clearQueue
deriving DecidableEq

def rlStep (s : RLState) : RLEvent → RLState
  | .execute id => { s with queue := s.queue ++ [id] }
  | .dispatchBurst burstSize =>
    { queue := s.queue.drop burstSize, settled := s.settled ++ s.queue.take burstSize }
  | .clearQueue => { s with queue := [] }

def rlRun (s : RLState) : List RLEvent → RLState
  | [] => s
  | e :: es => rlRun (rlStep s e) es

/-! ## Canonical batch traces

The event interleaving the batch drivers actually produce: for the `i`-th
entity a progress event carrying `i + 1`, the total and (tracks only) the
entity's name, followed by that entity's completion. -/

def expectedTrackEvents (total : Nat) :
    Nat → List SpotifyTrack → List TrackMatchResult → List (BatchEvent TrackMatchResult)
  | _, [], _ => []
  | _, _ :: _, [] => []
  | i, t :: ts, r :: rs =>
    .progress (i + 1) total (some t.name) :: .completed i r ::
      expectedTrackEvents total (i + 1) ts rs

def expectedAlbumEvents (total : Nat) :
    Nat → List SpotifyAlbum → List AlbumMatchResult → List (BatchEvent AlbumMatchResult)
  | _, [], _ => []
  | _, _ :: _, [] => []
  | i, _ :: as_, r :: rs =>
    .progress (i + 1) total none :: .completed i r ::
      expectedAlbumEvents total (i + 1) as_ rs

/-! ## Concrete instances

Small closed entities and catalogs used by the closed theorems below. -/

/-- A catalog on which every query comes back empty. -/
def emptyClient : TidalClient :=
  { getTrackByISRC := fun _ => none,
    searchTracks := fun _ _ => [],
    searchAlbums := fun _ _ => [],
    searchArtists := fun _ _ => [] }

def adeleTidal : TidalArtist := { id := "ta1", name := "Adele" }

/-- A catalog whose artist search returns exactly one artist, whose name
matches the query exactly. -/
def artistHitClient : TidalClient :=
  { emptyClient with searchArtists := fun _ _ => [adeleTidal] }

def demoAlbum : SpotifyAlbum :=
  { name := "aaaa", artists := [{ name := "bbbb" }], release_date := "2000" }

/-- A track with no ISRC whose searches find nothing acceptable but whose
suggestion query returns one candidate. -/
def unmatchedTrack : SpotifyTrack :=
  { id := "s1", name := "aaaa", artists := [{ name := "bbbb" }], album := none,
    isrc := none, duration_ms := 200000 }

def suggestionTrack : TidalTrack :=
  { id := "tt1", title := "zzzz", artist := { id := "a1", name := "qqqq" },
    artists := [{ id := "a1", name := "qqqq" }], album := none, duration := 100000 }

/-- Empty on the exact (limit 10) and fuzzy (limit 20) searches, nonempty on
the suggestion search (limit 5). -/
def suggestionClient : TidalClient :=
  { emptyClient with searchTracks := fun _ limit => if limit = 5 then [suggestionTrack] else [] }

def unmatchedFirstResult : TrackMatchResult :=
  { spotifyTrack := unmatchedTrack, tidalTrack := none, status := .unmatched,
    method := .unmatched, confidence := 0, suggestions := some [suggestionTrack] }

/-- A track carrying an ISRC that resolves on `isrcHitClient`. -/
def isrcTrack : SpotifyTrack :=
  { id := "s2", name := "cccc", artists := [{ name := "dddd" }], album := none,
    isrc := some "USRC17607839", duration_ms := 180000 }

def isrcTidalTrack : TidalTrack :=
  { id := "tt2", title := "completely different title",
    artist := { id := "a2", name := "someone else" },
    artists := [{ id := "a2", name := "someone else" }], album := none,
    duration := 999000 }

def isrcHitClient : TidalClient :=
  { emptyClient with getTrackByISRC := fun code => if code = "USRC17607839" then some isrcTidalTrack else none }

def isrcMatchResult : TrackMatchResult :=
  { spotifyTrack := isrcTrack, tidalTrack := some isrcTidalTrack, status := .matched,
    method := .isrc, confidence := 1 }

/-- A track and a candidate that satisfy the exact-metadata tier: identical
normalized title and artist, duration within the 2-second tolerance. -/
def exactTrack : SpotifyTrack :=
  { id := "s3", name := "abcd", artists := [{ name := "efgh" }], album := none,
    isrc := none, duration_ms := 200000 }

def exactTidalTrack : TidalTrack :=
  { id := "tt3", title := "abcd", artist := { id := "a3", name := "efgh" },
    artists := [{ id := "a3", name := "efgh" }], album := none, duration := 201000 }

def exactHitClient : TidalClient :=
  { emptyClient with searchTracks := fun _ limit => if limit = 10 then [exactTidalTrack] else [] }

def exactMatchResultDemo : TrackMatchResult :=
  { spotifyTrack := exactTrack, tidalTrack := some exactTidalTrack, status := .matched,
    method := .exact, confidence := 0.99 }

def adeleSpotify : SpotifyArtist := { name := "Adele" }

/-! Symmetry of the edit distance. -/

theorem lev_nil_right (xs : List Char) : lev xs [] = xs.length := by
  cases xs <;> simp [lev]

theorem lev_symm : ∀ xs ys : List Char, lev xs ys = lev ys xs := by
  intro xs
  induction xs with
  | nil =>
    intro ys
    simp [lev, lev_nil_right]
  | cons x xs ihx =>
    intro ys
    induction ys with
    | nil => simp [lev, lev_nil_right]
    | cons y ys ihy =>
      have h1 : lev xs (y :: ys) = lev (y :: ys) xs := ihx (y :: ys)
      have h2 : lev (x :: xs) ys = lev ys (x :: xs) := ihy
      have h3 : lev xs ys = lev ys xs := ihx ys
      have hc : (if x = y then 0 else 1) = (if y = x then 0 else 1) := by
        by_cases h : x = y <;> simp [h, Ne.symm, eq_comm]
      rw [lev, lev, h1, h2, h3, hc]
      omega

theorem levenshteinDistance_comm (a b : String) :
    levenshteinDistance a b = levenshteinDistance b a :=
  lev_symm a.data b.data

theorem stringSimilarity_comm (a b : String) :
    stringSimilarity a b = stringSimilarity b a := by
  unfold stringSimilarity
  by_cases h : normalizeString a = normalizeString b
  · simp [h]
  · have h2 : ¬ normalizeString b = normalizeString a := fun e => h e.symm
    simp only [if_neg h, if_neg h2]
    by_cases he : (normalizeString a).length = 0 ∨ (normalizeString b).length = 0
    · rw [if_pos he, if_pos he.symm]
    · rw [if_neg he, if_neg (fun e => he e.symm)]
      rw [levenshteinDistance_comm, Nat.max_comm]

/-- C8: the similarity function is reflexively 1 on every string; it is
symmetric; on the pair of empty strings it returns 1 through the
equal-after-normalization branch (whose condition trivially holds and which
is consulted before the empty-length branch, which would return 0, as both
normalized strings indeed have length 0); and on every pair it follows the
spec's branch description: 1 when the normalized inputs are equal, 0 when
either normalized input is empty, otherwise
1 - editDistance / max(normalized lengths). -/
theorem c8_stringSimilarity_properties :
    (∀ s : String, stringSimilarity s s = 1) ∧
    (∀ a b : String, stringSimilarity a b = stringSimilarity b a) ∧
    (stringSimilarity "" "" = 1 ∧ normalizeString "" = normalizeString "" ∧
      (normalizeString "").length = 0) ∧
    (∀ a b : String, stringSimilarity a b = similaritySpec a b) :=
  ⟨fun s => by simp [stringSimilarity],
   stringSimilarity_comm,
   ⟨by simp [stringSimilarity], rfl, by decide⟩,
   fun a b => by simp only [stringSimilarity, similaritySpec]⟩

/-! Structural facts about the track waterfall. -/

theorem matchByISRC_some {client : TidalClient} {t : SpotifyTrack}
    {r : TrackMatchResult} {calls : List CatalogCall}
    (h : TrackMatcher.matchByISRC client t = (some r, calls)) :
    r.spotifyTrack = t ∧ r.status = MatchStatus.matched ∧ r.method = MatchMethod.isrc ∧
      r.confidence = 1 ∧ r.tidalTrack.isSome = true ∧ r.suggestions = none := by
  unfold TrackMatcher.matchByISRC at h
  split at h
  · simp at h
  · split at h
    · simp at h
    · split at h
      · simp only [Prod.mk.injEq, Option.some.injEq] at h
        obtain ⟨h1, -⟩ := h
        subst h1
        exact ⟨rfl, rfl, rfl, rfl, rfl, rfl⟩
      · simp at h

theorem matchByExactMetadata_some {client : TidalClient} {ct : String → String}
    {t : SpotifyTrack} {r : TrackMatchResult} {calls : List CatalogCall}
    (h : TrackMatcher.matchByExactMetadata client ct t = (some r, calls)) :
    r.spotifyTrack = t ∧ r.status = MatchStatus.matched ∧ r.method = MatchMethod.exact ∧
      r.confidence = 0.99 ∧ r.tidalTrack.isSome = true ∧ r.suggestions = none := by
  unfold TrackMatcher.matchByExactMetadata at h
  dsimp only at h
  split at h
  · simp at h
  · split at h
    · simp only [Prod.mk.injEq, Option.some.injEq] at h
      obtain ⟨h1, -⟩ := h
      subst h1
      exact ⟨rfl, rfl, rfl, rfl, rfl, rfl⟩
    · simp at h

theorem matchByFuzzyMetadata_some {client : TidalClient} {ct : String → String}
    {t : SpotifyTrack} {r : TrackMatchResult} {calls : List CatalogCall}
    (h : TrackMatcher.matchByFuzzyMetadata client ct t = (some r, calls)) :
    r.spotifyTrack = t ∧ r.status = MatchStatus.matched ∧ r.method = MatchMethod.fuzzy ∧
      CONFIDENCE_THRESHOLD_LOW ≤ r.confidence ∧ r.tidalTrack.isSome = true ∧
      r.suggestions = none := by
  unfold TrackMatcher.matchByFuzzyMetadata at h
  dsimp only at h
  split at h
  · simp at h
  · split at h
    · simp at h
    · rename_i bestMatch rest
      split at h
      · rename_i hbest
        simp only [Prod.mk.injEq, Option.some.injEq] at h
        obtain ⟨h1, -⟩ := h
        subst h1
        exact ⟨rfl, rfl, rfl, hbest, rfl, rfl⟩
      · simp at h

theorem matchFresh_spec {client : TidalClient} {ct : String → String}
    {t : SpotifyTrack} {incl : Bool} {r : TrackMatchResult} {calls : List CatalogCall}
    (h : TrackMatcher.matchFresh client ct t incl = (r, calls)) :
    r.spotifyTrack = t ∧
      ((r.status = MatchStatus.matched ∧ r.tidalTrack.isSome = true ∧ r.suggestions = none ∧
          ((r.method = MatchMethod.isrc ∧ r.confidence = 1) ∨
           (r.method = MatchMethod.exact ∧ r.confidence = 0.99) ∨
           (r.method = MatchMethod.fuzzy ∧ CONFIDENCE_THRESHOLD_LOW ≤ r.confidence))) ∨
        (r.status = MatchStatus.unmatched ∧ r.tidalTrack = none ∧
          r.method = MatchMethod.unmatched ∧ r.confidence = 0)) := by
  unfold TrackMatcher.matchFresh at h
  rcases hI : TrackMatcher.matchByISRC client t with ⟨isrcMatch, calls1⟩
  rw [hI] at h
  cases isrcMatch with
  | some rI =>
    simp only [Prod.mk.injEq] at h
    obtain ⟨hr, -⟩ := h
    subst hr
    obtain ⟨h1, h2, h3, h4, h5, h6⟩ := matchByISRC_some hI
    exact ⟨h1, Or.inl ⟨h2, h5, h6, Or.inl ⟨h3, h4⟩⟩⟩
  | none =>
    rcases hE : TrackMatcher.matchByExactMetadata client ct t with ⟨exactMatch, calls2⟩
    rw [hE] at h
    cases exactMatch with
    | some rE =>
      simp only [Prod.mk.injEq] at h
      obtain ⟨hr, -⟩ := h
      subst hr
      obtain ⟨h1, h2, h3, h4, h5, h6⟩ := matchByExactMetadata_some hE
      exact ⟨h1, Or.inl ⟨h2, h5, h6, Or.inr (Or.inl ⟨h3, h4⟩)⟩⟩
    | none =>
      rcases hF : TrackMatcher.matchByFuzzyMetadata client ct t with ⟨fuzzyMatch, calls3⟩
      rw [hF] at h
      rcases hS : (if incl then TrackMatcher.getSuggestions client t else ([], [])) with ⟨suggestions, calls4⟩
      cases fuzzyMatch with
      | some rF =>
        dsimp only at h
        split at h
        · simp only [Prod.mk.injEq] at h
          obtain ⟨hr, -⟩ := h
          subst hr
          obtain ⟨h1, h2, h3, h4, h5, h6⟩ := matchByFuzzyMetadata_some hF
          exact ⟨h1, Or.inl ⟨h2, h5, h6, Or.inr (Or.inr ⟨h3, h4⟩)⟩⟩
        · rw [hS] at h
          simp only [Prod.mk.injEq] at h
          obtain ⟨hr, -⟩ := h
          subst hr
          exact ⟨rfl, Or.inr ⟨rfl, rfl, rfl, rfl⟩⟩
      | none =>
        dsimp only at h
        rw [hS] at h
        simp only [Prod.mk.injEq] at h
        obtain ⟨hr, -⟩ := h
        subst hr
        exact ⟨rfl, Or.inr ⟨rfl, rfl, rfl, rfl⟩⟩

/-- Case analysis of a successful `matchTrack` invocation: either a verbatim
cache hit (cache unchanged, no calls) or a fresh waterfall result followed
by the cache write. -/
theorem matchTrack_ok {client : TidalClient} {ct : String → String} {flags : CacheFlags}
    {now : Nat} {cache : Cache} {t : SpotifyTrack} {incl : Bool}
    {r : TrackMatchResult} {c2 : Cache} {calls : List CatalogCall}
    (h : TrackMatcher.matchTrack client ct flags now cache t incl = .ok (r, c2, calls)) :
    (TrackMatcher.checkCache flags cache t = some r ∧ c2 = cache ∧ calls = []) ∨
      (TrackMatcher.checkCache flags cache t = none ∧ flags.saveOk = true ∧
        TrackMatcher.matchFresh client ct t incl = (r, calls) ∧
        c2 = saveMatchEntry cache (TrackMatcher.toCacheEntry r now)) := by
  unfold TrackMatcher.matchTrack at h
  split at h
  · rename_i cachedMatch hc
    simp only [Except.ok.injEq, Prod.mk.injEq] at h
    obtain ⟨h1, h2, h3⟩ := h
    exact Or.inl ⟨h1 ▸ hc, h2.symm, h3.symm⟩
  · rename_i hc
    rcases hM : TrackMatcher.matchFresh client ct t incl with ⟨rM, callsM⟩
    rw [hM] at h
    dsimp only at h
    split at h
    · rename_i hsave
      simp only [Except.ok.injEq, Prod.mk.injEq] at h
      obtain ⟨h1, h2, h3⟩ := h
      subst h1 h2 h3
      exact Or.inr ⟨hc, hsave, rfl, rfl⟩
    · simp at h

/-! Cache lemmas. -/

theorem getMatchByTrackId_mem {cache : Cache} {id : String} {e : CacheEntry}
    (h : getMatchByTrackId cache id = some e) : e ∈ cache :=
  List.mem_of_find?_eq_some h

theorem getMatchByISRC_mem {cache : Cache} {code : String} {e : CacheEntry}
    (h : getMatchByISRC cache code = some e) : e ∈ cache :=
  List.mem_of_find?_eq_some h

theorem mem_saveMatchEntry {cache : Cache} {e0 e : CacheEntry}
    (h : e ∈ saveMatchEntry cache e0) : e = e0 ∨ e ∈ cache := by
  unfold saveMatchEntry at h
  rcases List.mem_cons.mp h with h | h
  · exact Or.inl h
  · exact Or.inr (List.mem_of_mem_filter h)

theorem getMatchByTrackId_save {cache : Cache} {e : CacheEntry} {id : String}
    (h : e.spotifyTrackId = id) :
    getMatchByTrackId (saveMatchEntry cache e) id = some e := by
  unfold getMatchByTrackId saveMatchEntry
  rw [List.find?_cons_of_pos]
  simp [h]

/-- Every cache hit rebuilds its result from some entry of the cache. -/
theorem checkCache_some {flags : CacheFlags} {cache : Cache} {t : SpotifyTrack}
    {r : TrackMatchResult} (h : TrackMatcher.checkCache flags cache t = some r) :
    ∃ e ∈ cache, r = TrackMatcher.resultFromCache t e := by
  unfold TrackMatcher.checkCache at h
  split at h
  · simp at h
  · split at h
    · rename_i e he
      simp only [Option.some.injEq] at h
      exact ⟨e, getMatchByTrackId_mem he, h.symm⟩
    · split at h
      · split at h
        · simp at h
        · split at h
          · rename_i e he
            simp only [Option.some.injEq] at h
            exact ⟨e, getMatchByISRC_mem he, h.symm⟩
          · simp at h
      · simp at h

/-- With the lookup side of the store failing, `checkCache` reports a miss. -/
theorem checkCache_lookupFail {flags : CacheFlags} {cache : Cache} {t : SpotifyTrack}
    (h : flags.lookupOk = false) : TrackMatcher.checkCache flags cache t = none := by
  unfold TrackMatcher.checkCache
  rw [if_pos]
  simp [h]

/-- On the empty cache, `checkCache` is a miss. -/
theorem checkCache_nil {flags : CacheFlags} {t : SpotifyTrack} :
    TrackMatcher.checkCache flags [] t = none := by
  unfold TrackMatcher.checkCache
  split
  · rfl
  · show (match getMatchByTrackId [] t.id with | _ => _) = none
    cases t.isrc <;> simp [getMatchByTrackId, getMatchByISRC]

/-- A save that succeeds means `matchTrack` cannot reject. -/
theorem matchTrack_saveOk_ok (client : TidalClient) (ct : String → String)
    {flags : CacheFlags} (now : Nat) (cache : Cache) (t : SpotifyTrack) (incl : Bool)
    (hsave : flags.saveOk = true) :
    ∃ x, TrackMatcher.matchTrack client ct flags now cache t incl = .ok x := by
  unfold TrackMatcher.matchTrack
  split
  · exact ⟨_, rfl⟩
  · rcases hM : TrackMatcher.matchFresh client ct t incl with ⟨r, calls⟩
    simp [hsave]

/-- After any successful `matchTrack`, the cache holds the returned outcome
under the track's id, and a fresh lookup reproduces the result with the
suggestions stripped. -/
theorem matchTrack_populates {client : TidalClient} {ct : String → String}
    {now : Nat} {cache : Cache} {t : SpotifyTrack} {incl : Bool}
    {r : TrackMatchResult} {c2 : Cache} {calls : List CatalogCall}
    (h : TrackMatcher.matchTrack client ct ⟨true, true⟩ now cache t incl = .ok (r, c2, calls)) :
    TrackMatcher.checkCache ⟨true, true⟩ c2 t = some { r with suggestions := none } := by
  rcases matchTrack_ok h with ⟨hc, hcache, -⟩ | ⟨hc, -, hM, hcache⟩
  · subst hcache
    obtain ⟨e, -, hre⟩ := checkCache_some hc
    have hss : { r with suggestions := none } = r := by
      subst hre; rfl
    rw [hss]
    exact hc
  · obtain ⟨hst, hshape⟩ := matchFresh_spec hM
    subst hcache
    have hid : (TrackMatcher.toCacheEntry r now).spotifyTrackId = t.id := by
      simp [TrackMatcher.toCacheEntry, hst]
    have hfind := @getMatchByTrackId_save cache (TrackMatcher.toCacheEntry r now) t.id hid
    unfold TrackMatcher.checkCache
    rw [if_neg (by simp)]
    rw [hfind]
    obtain ⟨rst, rtt, rstat, rm, rconf, rsug⟩ := r
    rcases hshape with ⟨h1, h2, -, -⟩ | ⟨h1, h2, -, -⟩ <;>
      simp_all [TrackMatcher.resultFromCache, TrackMatcher.toCacheEntry]

/-! Structural facts about the album and artist matchers. -/

theorem albumExact_some {client : TidalClient} {a : SpotifyAlbum}
    {r : AlbumMatchResult} {calls : List CatalogCall}
    (h : AlbumMatcher.matchByExactMetadata client a = (some r, calls)) :
    r.spotifyAlbum = a ∧ r.status = MatchStatus.matched ∧ r.method = MatchMethod.exact ∧
      r.confidence = 0.99 ∧ r.tidalAlbum.isSome = true := by
  unfold AlbumMatcher.matchByExactMetadata at h
  dsimp only at h
  split at h
  · simp at h
  · split at h
    · simp only [Prod.mk.injEq, Option.some.injEq] at h
      obtain ⟨h1, -⟩ := h
      subst h1
      exact ⟨rfl, rfl, rfl, rfl, rfl⟩
    · simp at h

theorem albumFuzzy_some {client : TidalClient} {a : SpotifyAlbum}
    {r : AlbumMatchResult} {calls : List CatalogCall}
    (h : AlbumMatcher.matchByFuzzyMetadata client a = (some r, calls)) :
    r.spotifyAlbum = a ∧ r.status = MatchStatus.matched ∧ r.method = MatchMethod.fuzzy ∧
      CONFIDENCE_THRESHOLD_LOW ≤ r.confidence ∧ r.tidalAlbum.isSome = true := by
  unfold AlbumMatcher.matchByFuzzyMetadata at h
  dsimp only at h
  split at h
  · simp at h
  · split at h
    · simp at h
    · split at h
      · rename_i hbest
        simp only [Prod.mk.injEq, Option.some.injEq] at h
        obtain ⟨h1, -⟩ := h
        subst h1
        exact ⟨rfl, rfl, rfl, hbest, rfl⟩
      · simp at h

theorem matchAlbum_spec (client : TidalClient) (a : SpotifyAlbum) :
    (AlbumMatcher.matchAlbum client a).1.spotifyAlbum = a ∧
      (((AlbumMatcher.matchAlbum client a).1.status = MatchStatus.matched ∧
          (AlbumMatcher.matchAlbum client a).1.tidalAlbum.isSome = true ∧
          (((AlbumMatcher.matchAlbum client a).1.method = MatchMethod.exact ∧
              (AlbumMatcher.matchAlbum client a).1.confidence = 0.99) ∨
           ((AlbumMatcher.matchAlbum client a).1.method = MatchMethod.fuzzy ∧
              CONFIDENCE_THRESHOLD_LOW ≤ (AlbumMatcher.matchAlbum client a).1.confidence))) ∨
        ((AlbumMatcher.matchAlbum client a).1.status = MatchStatus.unmatched ∧
          (AlbumMatcher.matchAlbum client a).1.tidalAlbum = none ∧
          (AlbumMatcher.matchAlbum client a).1.method = MatchMethod.unmatched ∧
          (AlbumMatcher.matchAlbum client a).1.confidence = 0)) := by
  unfold AlbumMatcher.matchAlbum
  rcases hE : AlbumMatcher.matchByExactMetadata client a with ⟨exactMatch, calls1⟩
  cases exactMatch with
  | some rE =>
    obtain ⟨h1, h2, h3, h4, h5⟩ := albumExact_some hE
    exact ⟨h1, Or.inl ⟨h2, h5, Or.inl ⟨h3, h4⟩⟩⟩
  | none =>
    rcases hF : AlbumMatcher.matchByFuzzyMetadata client a with ⟨fuzzyMatch, calls2⟩
    cases fuzzyMatch with
    | some rF =>
      obtain ⟨h1, h2, h3, h4, h5⟩ := albumFuzzy_some hF
      dsimp only
      rw [if_pos (show rF.confidence ≥ CONFIDENCE_THRESHOLD_LOW from h4)]
      exact ⟨h1, Or.inl ⟨h2, h5, Or.inr ⟨h3, h4⟩⟩⟩
    | none =>
      exact ⟨rfl, Or.inr ⟨rfl, rfl, rfl, rfl⟩⟩

theorem artistExact_some {client : TidalClient} {a : SpotifyArtist}
    {r : ArtistMatchResult} {calls : List CatalogCall}
    (h : ArtistMatcher.matchByExactName client a = (some r, calls)) :
    r.spotifyArtist = a ∧ r.status = MatchStatus.matched ∧ r.method = MatchMethod.exact ∧
      r.confidence = 1 ∧ r.tidalArtist.isSome = true := by
  unfold ArtistMatcher.matchByExactName at h
  dsimp only at h
  split at h
  · simp at h
  · split at h
    · simp only [Prod.mk.injEq, Option.some.injEq] at h
      obtain ⟨h1, -⟩ := h
      subst h1
      exact ⟨rfl, rfl, rfl, rfl, rfl⟩
    · simp at h

theorem artistFuzzy_some {client : TidalClient} {a : SpotifyArtist}
    {r : ArtistMatchResult} {calls : List CatalogCall}
    (h : ArtistMatcher.matchByFuzzyName client a = (some r, calls)) :
    r.spotifyArtist = a ∧ r.status = MatchStatus.matched ∧ r.method = MatchMethod.fuzzy ∧
      CONFIDENCE_THRESHOLD_LOW ≤ r.confidence ∧ r.tidalArtist.isSome = true := by
  unfold ArtistMatcher.matchByFuzzyName at h
  dsimp only at h
  split at h
  · simp at h
  · split at h
    · simp at h
    · split at h
      · rename_i hbest
        simp only [Prod.mk.injEq, Option.some.injEq] at h
        obtain ⟨h1, -⟩ := h
        subst h1
        exact ⟨rfl, rfl, rfl, hbest, rfl⟩
      · simp at h

theorem matchArtist_spec (client : TidalClient) (a : SpotifyArtist) :
    (ArtistMatcher.matchArtist client a).1.spotifyArtist = a ∧
      (((ArtistMatcher.matchArtist client a).1.status = MatchStatus.matched ∧
          (ArtistMatcher.matchArtist client a).1.tidalArtist.isSome = true ∧
          (((ArtistMatcher.matchArtist client a).1.method = MatchMethod.exact ∧
              (ArtistMatcher.matchArtist client a).1.confidence = 1) ∨
           ((ArtistMatcher.matchArtist client a).1.method = MatchMethod.fuzzy ∧
              CONFIDENCE_THRESHOLD_LOW ≤ (ArtistMatcher.matchArtist client a).1.confidence))) ∨
        ((ArtistMatcher.matchArtist client a).1.status = MatchStatus.unmatched ∧
          (ArtistMatcher.matchArtist client a).1.tidalArtist = none ∧
          (ArtistMatcher.matchArtist client a).1.method = MatchMethod.unmatched ∧
          (ArtistMatcher.matchArtist client a).1.confidence = 0)) := by
  unfold ArtistMatcher.matchArtist
  rcases hE : ArtistMatcher.matchByExactName client a with ⟨exactMatch, calls1⟩
  cases exactMatch with
  | some rE =>
    obtain ⟨h1, h2, h3, h4, h5⟩ := artistExact_some hE
    exact ⟨h1, Or.inl ⟨h2, h5, Or.inl ⟨h3, h4⟩⟩⟩
  | none =>
    rcases hF : ArtistMatcher.matchByFuzzyName client a with ⟨fuzzyMatch, calls2⟩
    cases fuzzyMatch with
    | some rF =>
      obtain ⟨h1, h2, h3, h4, h5⟩ := artistFuzzy_some hF
      dsimp only
      rw [if_pos (show rF.confidence ≥ CONFIDENCE_THRESHOLD_LOW from h4)]
      exact ⟨h1, Or.inl ⟨h2, h5, Or.inr ⟨h3, h4⟩⟩⟩
    | none =>
      exact ⟨rfl, Or.inr ⟨rfl, rfl, rfl, rfl⟩⟩

/-! Batch loop lemmas. -/

theorem matchTracksGo_spec {client : TidalClient} {ct : String → String} {now : Nat}
    {total : Nat} :
    ∀ (ts : List SpotifyTrack) (i : Nat) (cache : Cache) (results : List TrackMatchResult)
      (c2 : Cache) (events : List (BatchEvent TrackMatchResult)),
      TrackMatcher.matchTracksGo client ct ⟨true, true⟩ now total ts i cache =
        .ok (results, c2, events) →
      results.length = ts.length ∧ events = expectedTrackEvents total i ts results := by
  intro ts
  induction ts with
  | nil =>
    intro i cache results c2 events h
    unfold TrackMatcher.matchTracksGo at h
    simp only [Except.ok.injEq, Prod.mk.injEq] at h
    obtain ⟨h1, -, h3⟩ := h
    subst h1
    subst h3
    exact ⟨rfl, rfl⟩
  | cons t rest ih =>
    intro i cache results c2 events h
    unfold TrackMatcher.matchTracksGo at h
    cases hM : TrackMatcher.matchTrack client ct ⟨true, true⟩ now cache t with
    | error e => rw [hM] at h; simp at h
    | ok x =>
      rw [hM] at h
      rcases x with ⟨r1, cache2, calls1⟩
      dsimp only at h
      cases hGo : TrackMatcher.matchTracksGo client ct ⟨true, true⟩ now total rest (i + 1) cache2 with
      | error e => rw [hGo] at h; simp at h
      | ok y =>
        rw [hGo] at h
        rcases y with ⟨results2, cache3, events2⟩
        dsimp only at h
        simp only [Except.ok.injEq, Prod.mk.injEq] at h
        obtain ⟨h1, -, h3⟩ := h
        subst h1
        subst h3
        obtain ⟨ih1, ih2⟩ := ih (i + 1) cache2 results2 cache3 events2 hGo
        refine ⟨by simp [ih1], ?_⟩
        rw [expectedTrackEvents, ih2]

theorem matchAlbumsGo_spec {client : TidalClient} {total : Nat} :
    ∀ (as_ : List SpotifyAlbum) (i : Nat),
      (AlbumMatcher.matchAlbumsGo client total as_ i).1.length = as_.length ∧
      (AlbumMatcher.matchAlbumsGo client total as_ i).2 =
        expectedAlbumEvents total i as_ (AlbumMatcher.matchAlbumsGo client total as_ i).1 := by
  intro as_
  induction as_ with
  | nil => intro i; exact ⟨rfl, rfl⟩
  | cons a rest ih =>
    intro i
    obtain ⟨ih1, ih2⟩ := ih (i + 1)
    unfold AlbumMatcher.matchAlbumsGo
    rcases hA : AlbumMatcher.matchAlbum client a with ⟨r, calls⟩
    rcases hGo : AlbumMatcher.matchAlbumsGo client total rest (i + 1) with ⟨results, events⟩
    rw [hGo] at ih1 ih2
    have ih2a : events = expectedAlbumEvents total (i + 1) rest results := ih2
    have ih1a : results.length = rest.length := ih1
    dsimp only
    exact ⟨by simp [ih1a], by rw [expectedAlbumEvents, ih2a]⟩

/-! Rate limiter lemmas. -/

theorem processQueueAux_nil {α : Type} (B : Nat) (I : ℚ) (fuel : Nat) (durs : Nat → ℚ)
    (last now : ℚ) : processQueueAux B I fuel durs ([] : List α) last now = [] := by
  cases fuel <;> rfl

theorem processQueueAux_head {α : Type} {B : Nat} {I : ℚ} {fuel : Nat} {durs : Nat → ℚ}
    {q : List α} {last now : ℚ} (hq : q ≠ []) (hfuel : q.length ≤ fuel) :
    (processQueueAux B I fuel durs q last now).head? =
      some (now + max 0 (I - (now - last)), q.take B) := by
  cases q with
  | nil => exact absurd rfl hq
  | cons x xs =>
    cases fuel with
    | zero => simp at hfuel
    | succ fuel => rfl

theorem ceilDiv_zero (B : Nat) : ceilDiv 0 B = 0 := by
  unfold ceilDiv
  cases B with
  | zero => rfl
  | succ b => exact Nat.div_eq_of_lt (by omega)

theorem ceilDiv_step {n B : Nat} (hB : 0 < B) (hn : 0 < n) :
    ceilDiv n B = ceilDiv (n - B) B + 1 := by
  unfold ceilDiv
  have h1 : n + B - 1 = (n - 1) + B := by omega
  rcases Nat.le_total n B with h | h
  · have h2 : n - B = 0 := by omega
    rw [h1, h2, Nat.add_div_right _ hB]
    have h3 : (n - 1) / B = 0 := Nat.div_eq_of_lt (by omega)
    have h4 : (0 + B - 1) / B = 0 := Nat.div_eq_of_lt (by omega)
    rw [h3, h4]
  · have h2 : n - B + B - 1 = n - 1 := by omega
    rw [h1, h2, Nat.add_div_right _ hB]

theorem ceilDiv_pos {n B : Nat} (hB : 0 < B) (hn : 0 < n) : 0 < ceilDiv n B := by
  unfold ceilDiv
  exact Nat.div_pos (by omega) hB

theorem processQueueAux_join {α : Type} {B : Nat} (hB : 0 < B) (I : ℚ) :
    ∀ (fuel : Nat) (durs : Nat → ℚ) (q : List α) (last now : ℚ), q.length ≤ fuel →
      ((processQueueAux B I fuel durs q last now).map Prod.snd).flatten = q := by
  intro fuel
  induction fuel with
  | zero =>
    intro durs q last now hfuel
    cases q with
    | nil => rfl
    | cons x xs => simp at hfuel
  | succ fuel ih =>
    intro durs q last now hfuel
    cases q with
    | nil => rfl
    | cons x xs =>
      have hlen : ((x :: xs).drop B).length ≤ fuel := by
        rw [List.length_drop]
        simp only [List.length_cons] at hfuel ⊢
        omega
      show (x :: xs).take B ++ _ = x :: xs
      rw [ih _ ((x :: xs).drop B) _ _ hlen]
      exact List.take_append_drop B (x :: xs)

theorem processQueueAux_length {α : Type} {B : Nat} (hB : 0 < B) (I : ℚ) :
    ∀ (fuel : Nat) (durs : Nat → ℚ) (q : List α) (last now : ℚ), q.length ≤ fuel →
      (processQueueAux B I fuel durs q last now).length = ceilDiv q.length B := by
  intro fuel
  induction fuel with
  | zero =>
    intro durs q last now hfuel
    cases q with
    | nil => simp [processQueueAux_nil, ceilDiv_zero]
    | cons x xs => simp at hfuel
  | succ fuel ih =>
    intro durs q last now hfuel
    cases q with
    | nil => simp [processQueueAux_nil, ceilDiv_zero]
    | cons x xs =>
      have hlen : ((x :: xs).drop B).length ≤ fuel := by
        rw [List.length_drop]
        simp only [List.length_cons] at hfuel ⊢
        omega
      show (processQueueAux B I fuel _ ((x :: xs).drop B) _ _).length + 1 = _
      rw [ih _ ((x :: xs).drop B) _ _ hlen]
      conv_rhs => rw [ceilDiv_step hB (by simp : 0 < (x :: xs).length)]
      rw [List.length_drop]

theorem processQueueAux_bursts {α : Type} {B : Nat} (hB : 0 < B) (I : ℚ) :
    ∀ (fuel : Nat) (durs : Nat → ℚ) (q : List α) (last now : ℚ), q.length ≤ fuel →
      ∀ p ∈ processQueueAux B I fuel durs q last now, p.2.length ≤ B ∧ p.2 ≠ [] := by
  intro fuel
  induction fuel with
  | zero =>
    intro durs q last now hfuel p hp
    cases q with
    | nil => rw [processQueueAux_nil] at hp; exact absurd hp (List.not_mem_nil p)
    | cons x xs => simp at hfuel
  | succ fuel ih =>
    intro durs q last now hfuel p hp
    cases q with
    | nil => rw [processQueueAux_nil] at hp; exact absurd hp (List.not_mem_nil p)
    | cons x xs =>
      have hlen : ((x :: xs).drop B).length ≤ fuel := by
        rw [List.length_drop]
        simp only [List.length_cons] at hfuel ⊢
        omega
      rcases List.mem_cons.mp hp with h | h
      · subst h
        refine ⟨by rw [List.length_take]; exact Nat.min_le_left _ _, ?_⟩
        show (x :: xs).take B ≠ []
        cases B with
        | zero => omega
        | succ b => simp
      · exact ih _ ((x :: xs).drop B) _ _ hlen p h

theorem processQueueAux_chain {α : Type} {B : Nat} (hB : 0 < B) {I : ℚ} (hI : 0 ≤ I) :
    ∀ (fuel : Nat) (durs : Nat → ℚ) (q : List α) (last now : ℚ), q.length ≤ fuel →
      (∀ k, 0 ≤ durs k) →
      List.Chain' (fun p q => p.1 + I ≤ q.1) (processQueueAux B I fuel durs q last now) := by
  intro fuel
  induction fuel with
  | zero =>
    intro durs q last now hfuel hd
    cases q with
    | nil => simp [processQueueAux_nil]
    | cons x xs => simp at hfuel
  | succ fuel ih =>
    intro durs q last now hfuel hd
    cases q with
    | nil => simp [processQueueAux_nil]
    | cons x xs =>
      have hlen : ((x :: xs).drop B).length ≤ fuel := by
        rw [List.length_drop]
        simp only [List.length_cons] at hfuel ⊢
        omega
      show List.Chain' _ (_ :: processQueueAux B I fuel _ ((x :: xs).drop B) _ _)
      have hrec := ih (fun k => durs (k + 1)) ((x :: xs).drop B)
        (now + max 0 (I - (now - last)) + durs 0) (now + max 0 (I - (now - last)) + durs 0)
        hlen (fun k => hd (k + 1))
      rw [List.chain'_cons']
      refine ⟨?_, hrec⟩
      intro b hb
      rcases hdrop : (x :: xs).drop B with - | ⟨y, ys⟩
      · rw [hdrop, processQueueAux_nil] at hb
        simp at hb
      · rw [hdrop] at hb
        have hlen2 : (y :: ys).length ≤ fuel := by rw [← hdrop]; exact hlen
        rw [processQueueAux_head (by simp) hlen2] at hb
        simp only [Option.mem_def, Option.some.injEq] at hb
        subst hb
        have h0 : (0 : ℚ) ≤ durs 0 := hd 0
        simp only
        rw [sub_self, sub_zero, max_eq_right hI]
        linarith

theorem processQueueAux_bound {α : Type} {B : Nat} (hB : 0 < B) {I : ℚ} (hI : 0 ≤ I) :
    ∀ (fuel : Nat) (durs : Nat → ℚ) (q : List α) (last now : ℚ), q.length ≤ fuel →
      (∀ k, 0 ≤ durs k) → q ≠ [] →
      ∃ p0 pl, (processQueueAux B I fuel durs q last now).head? = some p0 ∧
        (processQueueAux B I fuel durs q last now).getLast? = some pl ∧
        now ≤ p0.1 ∧
        p0.1 + (((processQueueAux B I fuel durs q last now).length - 1 : ℕ) : ℚ) * I ≤ pl.1 := by
  intro fuel
  induction fuel with
  | zero =>
    intro durs q last now hfuel hd hq
    cases q with
    | nil => exact absurd rfl hq
    | cons x xs => simp at hfuel
  | succ fuel ih =>
    intro durs q last now hfuel hd hq
    cases q with
    | nil => exact absurd rfl hq
    | cons x xs =>
      have hnow : now ≤ now + max 0 (I - (now - last)) := by
        have := le_max_left (0 : ℚ) (I - (now - last))
        linarith
      have hlen : ((x :: xs).drop B).length ≤ fuel := by
        rw [List.length_drop]
        simp only [List.length_cons] at hfuel ⊢
        omega
      rcases hdrop : (x :: xs).drop B with - | ⟨y, ys⟩
      · have hs : processQueueAux B I (fuel + 1) durs (x :: xs) last now =
            [(now + max 0 (I - (now - last)), (x :: xs).take B)] := by
          show (_, _) :: processQueueAux B I fuel (fun k => durs (k + 1)) ((x :: xs).drop B) _ _ = _
          rw [hdrop, processQueueAux_nil]
        exact ⟨(now + max 0 (I - (now - last)), (x :: xs).take B),
               (now + max 0 (I - (now - last)), (x :: xs).take B),
               by rw [hs]; rfl, by rw [hs]; rfl, hnow, by rw [hs]; simp⟩
      · have hne : (x :: xs).drop B ≠ [] := by rw [hdrop]; simp
        obtain ⟨p0, pl, hhead, hlast, hle, hbound⟩ :=
          ih (fun k => durs (k + 1)) ((x :: xs).drop B)
            (now + max 0 (I - (now - last)) + durs 0)
            (now + max 0 (I - (now - last)) + durs 0) hlen (fun k => hd (k + 1)) hne
        have hs : processQueueAux B I (fuel + 1) durs (x :: xs) last now =
            (now + max 0 (I - (now - last)), (x :: xs).take B) ::
              processQueueAux B I fuel (fun k => durs (k + 1)) ((x :: xs).drop B)
                (now + max 0 (I - (now - last)) + durs 0)
                (now + max 0 (I - (now - last)) + durs 0) := rfl
        have hhead2 := @processQueueAux_head α B I fuel (fun k => durs (k + 1))
          ((x :: xs).drop B)
          (now + max 0 (I - (now - last)) + durs 0)
          (now + max 0 (I - (now - last)) + durs 0) hne hlen
        have hp0 : p0.1 = now + max 0 (I - (now - last)) + durs 0 + I := by
          rw [hhead] at hhead2
          injection hhead2 with h
          rw [h]
          show now + max 0 (I - (now - last)) + durs 0 +
            max 0 (I - (now + max 0 (I - (now - last)) + durs 0 -
              (now + max 0 (I - (now - last)) + durs 0))) = _
          rw [sub_self, sub_zero, max_eq_right hI]
        cases hs2 : processQueueAux B I fuel (fun k => durs (k + 1)) ((x :: xs).drop B)
            (now + max 0 (I - (now - last)) + durs 0)
            (now + max 0 (I - (now - last)) + durs 0) with
        | nil => rw [hs2] at hhead; simp at hhead
        | cons p ps =>
          refine ⟨(now + max 0 (I - (now - last)), (x :: xs).take B), pl,
            by rw [hs]; rfl, ?_, hnow, ?_⟩
          · rw [hs, hs2, List.getLast?_cons_cons]
            rw [hs2] at hlast
            exact hlast
          · have hd0 : (0 : ℚ) ≤ durs 0 := hd 0
            rw [hs, hs2]
            rw [hs2] at hbound
            rw [hp0] at hbound
            simp only [List.length_cons, Nat.add_sub_cancel] at hbound ⊢
            push_cast at hbound ⊢
            linarith

/-! Promise settlement lemmas. -/

theorem rlRun_unsettled :
    ∀ (events : List RLEvent) (s : RLState) (id : Nat),
      id ∉ s.queue → id ∉ s.settled → (∀ e ∈ events, e ≠ RLEvent.execute id) →
      id ∉ (rlRun s events).queue ∧ id ∉ (rlRun s events).settled := by
  intro events
  induction events with
  | nil => intro s id h1 h2 _; exact ⟨h1, h2⟩
  | cons e es ih =>
    intro s id h1 h2 he
    have hene : e ≠ RLEvent.execute id := he e (List.mem_cons_self e es)
    have hes : ∀ x ∈ es, x ≠ RLEvent.execute id := fun x hx => he x (List.mem_cons_of_mem e hx)
    cases e with
    | execute j =>
      refine ih _ id ?_ h2 hes
      simp only [rlStep]
      intro hmem
      rcases List.mem_append.mp hmem with h | h
      · exact h1 h
      · simp only [List.mem_singleton] at h
        subst h
        exact hene rfl
    | dispatchBurst b =>
      refine ih _ id ?_ ?_ hes
      · simp only [rlStep]
        intro hmem
        exact h1 (List.mem_of_mem_drop hmem)
      · simp only [rlStep]
        intro hmem
        rcases List.mem_append.mp hmem with h | h
        · exact h2 h
        · exact h1 (List.mem_of_mem_take h)
    | clearQueue =>
      refine ih _ id ?_ h2 hes
      simp [rlStep]

theorem matchTracksGo_saveOk_ok (client : TidalClient) (ct : String → String)
    {flags : CacheFlags} (now : Nat) (total : Nat) (hsave : flags.saveOk = true) :
    ∀ (ts : List SpotifyTrack) (i : Nat) (cache : Cache),
      ∃ results c2 events,
        TrackMatcher.matchTracksGo client ct flags now total ts i cache =
          .ok (results, c2, events) ∧ results.length = ts.length := by
  intro ts
  induction ts with
  | nil => intro i cache; exact ⟨[], cache, [], rfl, rfl⟩
  | cons t rest ih =>
    intro i cache
    obtain ⟨x, hx⟩ := matchTrack_saveOk_ok client ct now cache t true hsave
    rcases x with ⟨r1, cache2, calls1⟩
    obtain ⟨results, c2, events, hgo, hlen⟩ := ih (i + 1) cache2
    refine ⟨r1 :: results, c2,
      .progress (i + 1) total (some t.name) :: .completed i r1 :: events, ?_, by simp [hlen]⟩
    unfold TrackMatcher.matchTracksGo
    rw [hx]
    dsimp only
    rw [hgo]

/-!
## The claims

Each specification claim about the matching engine is settled by one
theorem below; theorems with hypotheses come with a witness theorem
instantiating them on concrete inputs, and specification statements the
code refutes come with a counterexample theorem at a concrete input.
-/

/-- C9: for a queue of operations submitted to the rate limiter configured
for `requestsPerSecond` requests per second (minimum inter-dispatch interval
`1000 / requestsPerSecond` milliseconds) and burst size `burstSize ≥ 1`,
the dispatch schedule computed by `processQueue` (with nonnegative burst
durations `durs`): dispatches the operations in arrival order (concatenating
the bursts gives back the queue, FIFO, no priority), with at most
`burstSize` operations per (nonempty) burst, with at least the minimum
interval between consecutive burst dispatch times; it consists of
`⌈N / burstSize⌉` bursts, the first dispatched no earlier than submission
time, and the last dispatched at least
`(⌈N / burstSize⌉ - 1) * (1000 / requestsPerSecond)` after the first — so
completing all operations takes no less than that (the first burst itself
may dispatch immediately). -/
theorem c9_rate_limiter :
    ∀ (burstSize : Nat) (requestsPerSecond : ℚ) (durs : Nat → ℚ) (queue : List Nat)
      (lastExecutionTime now : ℚ),
      0 < burstSize → 0 < requestsPerSecond → (∀ k, 0 ≤ durs k) →
      (((processQueue burstSize (1000 / requestsPerSecond) durs queue
            lastExecutionTime now).map Prod.snd).flatten = queue) ∧
      (∀ p ∈ processQueue burstSize (1000 / requestsPerSecond) durs queue
            lastExecutionTime now, p.2.length ≤ burstSize ∧ p.2 ≠ []) ∧
      List.Chain' (fun p q => p.1 + 1000 / requestsPerSecond ≤ q.1)
        (processQueue burstSize (1000 / requestsPerSecond) durs queue
          lastExecutionTime now) ∧
      (processQueue burstSize (1000 / requestsPerSecond) durs queue
          lastExecutionTime now).length = ceilDiv queue.length burstSize ∧
      (queue ≠ [] → ∃ p0 pl,
        (processQueue burstSize (1000 / requestsPerSecond) durs queue
            lastExecutionTime now).head? = some p0 ∧
        (processQueue burstSize (1000 / requestsPerSecond) durs queue
            lastExecutionTime now).getLast? = some pl ∧
        now ≤ p0.1 ∧
        p0.1 + ((ceilDiv queue.length burstSize - 1 : ℕ) : ℚ) *
          (1000 / requestsPerSecond) ≤ pl.1) := by
  intro burstSize requestsPerSecond durs queue lastExecutionTime now hB hR hd
  have hI : (0 : ℚ) ≤ 1000 / requestsPerSecond := by positivity
  have hfuel : queue.length ≤ queue.length := le_refl _
  refine ⟨processQueueAux_join hB _ _ durs queue _ _ hfuel,
    processQueueAux_bursts hB _ _ durs queue _ _ hfuel,
    processQueueAux_chain hB hI _ durs queue _ _ hfuel hd,
    processQueueAux_length hB _ _ durs queue _ _ hfuel, ?_⟩
  intro hq
  obtain ⟨p0, pl, h1, h2, h3, h4⟩ :=
    processQueueAux_bound hB hI queue.length durs queue lastExecutionTime now hfuel hd hq
  refine ⟨p0, pl, h1, h2, h3, ?_⟩
  rw [processQueueAux_length hB _ _ durs queue _ _ hfuel] at h4
  exact h4

/-- C9 witness: five operations, burst size 2, five requests per second
(200 ms interval), submitted at time 1000 with an idle limiter. -/
theorem c9_rate_limiter_witness :
    (0 < 2 ∧ (0 : ℚ) < 5 ∧ ∀ k : Nat, (0 : ℚ) ≤ (fun _ => (0 : ℚ)) k) ∧
    ((((processQueue 2 (1000 / 5) (fun _ => (0 : ℚ)) [0, 1, 2, 3, 4] 0 1000).map
          Prod.snd).flatten = [0, 1, 2, 3, 4]) ∧
      (∀ p ∈ processQueue 2 (1000 / 5) (fun _ => (0 : ℚ)) [0, 1, 2, 3, 4] 0 1000,
        p.2.length ≤ 2 ∧ p.2 ≠ []) ∧
      List.Chain' (fun p q => p.1 + 1000 / 5 ≤ q.1)
        (processQueue 2 (1000 / 5) (fun _ => (0 : ℚ)) [0, 1, 2, 3, 4] 0 1000) ∧
      (processQueue 2 (1000 / 5) (fun _ => (0 : ℚ)) [0, 1, 2, 3, 4] 0 1000).length =
        ceilDiv 5 2 ∧
      ([0, 1, 2, 3, 4] ≠ ([] : List Nat) → ∃ p0 pl,
        (processQueue 2 (1000 / 5) (fun _ => (0 : ℚ)) [0, 1, 2, 3, 4] 0 1000).head? = some p0 ∧
        (processQueue 2 (1000 / 5) (fun _ => (0 : ℚ)) [0, 1, 2, 3, 4] 0 1000).getLast? = some pl ∧
        (1000 : ℚ) ≤ p0.1 ∧
        p0.1 + ((ceilDiv 5 2 - 1 : ℕ) : ℚ) * (1000 / 5) ≤ pl.1)) :=
  ⟨⟨by decide, by norm_num, fun k => le_refl 0⟩,
    c9_rate_limiter 2 5 (fun _ => 0) [0, 1, 2, 3, 4] 0 1000 (by decide) (by norm_num)
      (fun k => le_refl 0)⟩

/-- C10: if `clearQueue()` is called while operations are enqueued and not
yet dispatched, they are silently discarded: the queue empties, and in every
subsequent continuation of the run that does not re-submit the same operation,
that operation's promise is never settled (resolved or rejected) — its
caller waits forever. -/
theorem c10_clearQueue_pending_forever :
    ∀ (s : RLState) (id : Nat) (events : List RLEvent),
      id ∈ s.queue → id ∉ s.settled → (∀ e ∈ events, e ≠ RLEvent.execute id) →
      (rlStep s RLEvent.clearQueue).queue = [] ∧
      id ∉ (rlRun (rlStep s RLEvent.clearQueue) events).settled ∧
      id ∉ (rlRun (rlStep s RLEvent.clearQueue) events).queue := by
  intro s id events hq hs he
  have h0 : id ∉ (rlStep s RLEvent.clearQueue).queue := by simp [rlStep]
  have h0s : id ∉ (rlStep s RLEvent.clearQueue).settled := hs
  obtain ⟨h1, h2⟩ := rlRun_unsettled events _ id h0 h0s he
  exact ⟨rfl, h2, h1⟩

/-- C10 witness: operation 7 is queued and unsettled; after `clearQueue` and
a further dispatch, an unrelated submission and another clear, 7 is still
never settled. -/
theorem c10_clearQueue_witness :
    (7 ∈ [7] ∧ (7 : Nat) ∉ ([] : List Nat) ∧
      (∀ e ∈ [RLEvent.dispatchBurst 2, RLEvent.execute 3, RLEvent.clearQueue],
        e ≠ RLEvent.execute 7)) ∧
    ((rlStep ⟨[7], []⟩ RLEvent.clearQueue).queue = [] ∧
      7 ∉ (rlRun (rlStep ⟨[7], []⟩ RLEvent.clearQueue)
        [RLEvent.dispatchBurst 2, RLEvent.execute 3, RLEvent.clearQueue]).settled ∧
      7 ∉ (rlRun (rlStep ⟨[7], []⟩ RLEvent.clearQueue)
        [RLEvent.dispatchBurst 2, RLEvent.execute 3, RLEvent.clearQueue]).queue) :=
  ⟨⟨by decide, by decide, by decide⟩,
    c10_clearQueue_pending_forever ⟨[7], []⟩ 7
      [RLEvent.dispatchBurst 2, RLEvent.execute 3, RLEvent.clearQueue]
      (by decide) (by decide) (by decide)⟩

/-- C6: for a track with a (truthy) unique identifier code that resolves on
the target catalog, and no cache entry, the result carries the
unique-identifier method (the code's `isrc` tier, the spec's `unique_id`)
with confidence 1.0 and the resolved candidate — regardless of any textual
divergence, since no title or artist is consulted — and the only outbound
call is the identifier lookup: no exact or fuzzy tier is attempted. -/
theorem c6_isrc_authoritative :
    ∀ (client : TidalClient) (ct : String → String) (flags : CacheFlags) (now : Nat)
      (cache : Cache) (t : SpotifyTrack) (code : String) (tt : TidalTrack)
      (r : TrackMatchResult) (c2 : Cache) (calls : List CatalogCall),
      TrackMatcher.checkCache flags cache t = none →
      t.isrc = some code → ¬ code = "" →
      client.getTrackByISRC code = some tt →
      TrackMatcher.matchTrack client ct flags now cache t true = .ok (r, c2, calls) →
      r.method = MatchMethod.isrc ∧ r.confidence = 1 ∧ r.status = MatchStatus.matched ∧
        r.tidalTrack = some tt ∧ calls = [CatalogCall.getTrackByISRC code] := by
  intro client ct flags now cache t code tt r c2 calls hmiss hisrc hcode hlook h
  have hby : TrackMatcher.matchByISRC client t =
      (some { spotifyTrack := t, tidalTrack := some tt, status := .matched,
              method := .isrc, confidence := 1 }, [CatalogCall.getTrackByISRC code]) := by
    unfold TrackMatcher.matchByISRC
    rw [hisrc]
    dsimp only
    rw [if_neg hcode, hlook]
  have hfresh : TrackMatcher.matchFresh client ct t true =
      ({ spotifyTrack := t, tidalTrack := some tt, status := .matched,
         method := .isrc, confidence := 1 }, [CatalogCall.getTrackByISRC code]) := by
    unfold TrackMatcher.matchFresh
    rw [hby]
  rcases matchTrack_ok h with ⟨hc, -, -⟩ | ⟨-, -, hM, -⟩
  · rw [hmiss] at hc
    simp at hc
  · rw [hfresh] at hM
    simp only [Prod.mk.injEq] at hM
    obtain ⟨h1, h2⟩ := hM
    subst h1
    exact ⟨rfl, rfl, rfl, rfl, h2.symm⟩

/-- C6 witness: `isrcTrack` (code USRC17607839) resolves on `isrcHitClient`
to a candidate with an entirely different title and artist. -/
theorem c6_isrc_authoritative_witness :
    (TrackMatcher.checkCache ⟨true, true⟩ [] isrcTrack = none ∧
      isrcTrack.isrc = some "USRC17607839" ∧ ¬ "USRC17607839" = "" ∧
      isrcHitClient.getTrackByISRC "USRC17607839" = some isrcTidalTrack ∧
      TrackMatcher.matchTrack isrcHitClient id ⟨true, true⟩ 0 [] isrcTrack true =
        .ok (isrcMatchResult, saveMatchEntry [] (TrackMatcher.toCacheEntry isrcMatchResult 0),
          [CatalogCall.getTrackByISRC "USRC17607839"])) ∧
    (isrcMatchResult.method = MatchMethod.isrc ∧ isrcMatchResult.confidence = 1 ∧
      isrcMatchResult.status = MatchStatus.matched ∧
      isrcMatchResult.tidalTrack = some isrcTidalTrack ∧
      [CatalogCall.getTrackByISRC "USRC17607839"] = [CatalogCall.getTrackByISRC "USRC17607839"]) :=
  ⟨⟨by decide, rfl, by decide, by decide, by decide⟩,
    c6_isrc_authoritative isrcHitClient id ⟨true, true⟩ 0 [] isrcTrack "USRC17607839"
      isrcTidalTrack isrcMatchResult
      (saveMatchEntry [] (TrackMatcher.toCacheEntry isrcMatchResult 0))
      [CatalogCall.getTrackByISRC "USRC17607839"]
      (by decide) rfl (by decide) (by decide) (by decide)⟩

/-- C7: for every result a matcher produces — for the track matcher under
the cache well-formedness condition that every entry's target is non-null
exactly when its confidence is positive, a condition every write performed
by the engine preserves (third conjunct) — `status = matched` holds iff the
target entity is non-null, iff the confidence is positive; equivalently
`status = unmatched` forces a null target and confidence 0 and conversely. -/
theorem c7_status_invariant :
    (∀ (client : TidalClient) (ct : String → String) (flags : CacheFlags) (now : Nat)
        (cache : Cache) (t : SpotifyTrack) (incl : Bool) (r : TrackMatchResult)
        (c2 : Cache) (calls : List CatalogCall),
        (∀ e ∈ cache, e.tidalTrack.isSome = true ↔ 0 < e.confidence) →
        TrackMatcher.matchTrack client ct flags now cache t incl = .ok (r, c2, calls) →
        ((r.status = MatchStatus.matched ↔ ¬ r.tidalTrack = none) ∧
          (r.status = MatchStatus.matched ↔ 0 < r.confidence) ∧
          ∀ e ∈ c2, e.tidalTrack.isSome = true ↔ 0 < e.confidence)) ∧
    (∀ (client : TidalClient) (a : SpotifyAlbum),
        ((AlbumMatcher.matchAlbum client a).1.status = MatchStatus.matched ↔
          ¬ (AlbumMatcher.matchAlbum client a).1.tidalAlbum = none) ∧
        ((AlbumMatcher.matchAlbum client a).1.status = MatchStatus.matched ↔
          0 < (AlbumMatcher.matchAlbum client a).1.confidence)) ∧
    (∀ (client : TidalClient) (a : SpotifyArtist),
        ((ArtistMatcher.matchArtist client a).1.status = MatchStatus.matched ↔
          ¬ (ArtistMatcher.matchArtist client a).1.tidalArtist = none) ∧
        ((ArtistMatcher.matchArtist client a).1.status = MatchStatus.matched ↔
          0 < (ArtistMatcher.matchArtist client a).1.confidence)) := by
  have hlow : (0 : ℚ) < CONFIDENCE_THRESHOLD_LOW := by norm_num [CONFIDENCE_THRESHOLD_LOW]
  refine ⟨?_, ?_, ?_⟩
  · intro client ct flags now cache t incl r c2 calls hinv h
    have hr : (r.status = MatchStatus.matched ↔ ¬ r.tidalTrack = none) ∧
        (r.status = MatchStatus.matched ↔ 0 < r.confidence) := by
      rcases matchTrack_ok h with ⟨hc, -, -⟩ | ⟨-, -, hM, -⟩
      · obtain ⟨e, hmem, hre⟩ := checkCache_some hc
        have hi := hinv e hmem
        subst hre
        obtain ⟨eid, eisrc, ett, em, ec, eat⟩ := e
        cases ett with
        | none =>
          simp only [Option.isSome_none, Bool.false_eq_true, false_iff, not_lt] at hi
          constructor
          · simp [TrackMatcher.resultFromCache]
          · simp only [TrackMatcher.resultFromCache, Option.isSome_none]
            constructor
            · intro hx
              simp at hx
            · intro hx
              exact absurd hx (by simpa using hi)
        | some tt =>
          simp only [Option.isSome_some, true_iff] at hi
          constructor
          · simp [TrackMatcher.resultFromCache]
          · simp only [TrackMatcher.resultFromCache, Option.isSome_some]
            simpa using hi
      · obtain ⟨-, hshape⟩ := matchFresh_spec hM
        rcases hshape with ⟨h1, h2, -, hm⟩ | ⟨h1, h2, -, h4⟩
        · constructor
          · rw [h1]
            simp only [true_iff]
            intro hz
            rw [hz] at h2
            simp at h2
          · rw [h1]
            simp only [true_iff]
            rcases hm with ⟨-, hcf⟩ | ⟨-, hcf⟩ | ⟨-, hcf⟩
            · rw [hcf]; norm_num
            · rw [hcf]; norm_num
            · linarith
        · rw [h1, h2, h4]
          constructor
          · simp
          · simp
    refine ⟨hr.1, hr.2, ?_⟩
    intro e hmem
    rcases matchTrack_ok h with ⟨-, hcache, -⟩ | ⟨-, -, -, hcache⟩
    · subst hcache
      exact hinv e hmem
    · subst hcache
      rcases mem_saveMatchEntry hmem with he | he
      · subst he
        show r.tidalTrack.isSome = true ↔ 0 < r.confidence
        rw [← hr.2, Option.isSome_iff_ne_none]
        exact ⟨fun hx => hr.1.mpr hx, fun hx => hr.1.mp hx⟩
      · exact hinv e he
  · intro client a
    rcases (matchAlbum_spec client a).2 with ⟨h1, h2, hm⟩ | ⟨h1, h2, -, h4⟩
    · rw [h1]
      refine ⟨by simp only [true_iff]; intro hz; rw [hz] at h2; simp at h2, ?_⟩
      simp only [true_iff]
      rcases hm with ⟨-, hcf⟩ | ⟨-, hcf⟩
      · rw [hcf]; norm_num
      · linarith
    · rw [h1, h2, h4]
      exact ⟨by simp, by simp⟩
  · intro client a
    rcases (matchArtist_spec client a).2 with ⟨h1, h2, hm⟩ | ⟨h1, h2, -, h4⟩
    · rw [h1]
      refine ⟨by simp only [true_iff]; intro hz; rw [hz] at h2; simp at h2, ?_⟩
      simp only [true_iff]
      rcases hm with ⟨-, hcf⟩ | ⟨-, hcf⟩
      · rw [hcf]; norm_num
      · linarith
    · rw [h1, h2, h4]
      exact ⟨by simp, by simp⟩

/-- C7 witness: the invariant instantiated on a concrete unmatched run over
the empty cache. -/
theorem c7_status_invariant_witness :
    (∀ e ∈ ([] : Cache), e.tidalTrack.isSome = true ↔ 0 < e.confidence) ∧
    TrackMatcher.matchTrack suggestionClient id ⟨true, true⟩ 0 [] unmatchedTrack true =
      .ok (unmatchedFirstResult,
        saveMatchEntry [] (TrackMatcher.toCacheEntry unmatchedFirstResult 0),
        [CatalogCall.searchTracks "aaaa bbbb" 10, CatalogCall.searchTracks "aaaa bbbb" 20,
          CatalogCall.searchTracks "aaaa bbbb" 5]) ∧
    ((unmatchedFirstResult.status = MatchStatus.matched ↔
        ¬ unmatchedFirstResult.tidalTrack = none) ∧
      (unmatchedFirstResult.status = MatchStatus.matched ↔ 0 < unmatchedFirstResult.confidence) ∧
      ∀ e ∈ saveMatchEntry [] (TrackMatcher.toCacheEntry unmatchedFirstResult 0),
        e.tidalTrack.isSome = true ↔ 0 < e.confidence) :=
  ⟨fun e he => absurd he (List.not_mem_nil e), by decide,
    c7_status_invariant.1 suggestionClient id ⟨true, true⟩ 0 [] unmatchedTrack true
      unmatchedFirstResult (saveMatchEntry [] (TrackMatcher.toCacheEntry unmatchedFirstResult 0))
      [CatalogCall.searchTracks "aaaa bbbb" 10, CatalogCall.searchTracks "aaaa bbbb" 20,
        CatalogCall.searchTracks "aaaa bbbb" 5]
      (fun e he => absurd he (List.not_mem_nil e)) (by decide)⟩

/-- C1 counterexample: the album matcher performs no cache write at all (its
code contains no cache access), so its terminal outcome is not persisted and
a second identical pass — the album matcher is a pure function of the
catalog — issues the same nonempty outbound call list instead of none.  The
computed call trace of `matchAlbum` on a concrete album is nonempty, and
being stateless the second pass repeats it verbatim. -/
theorem c1_counterexample :
    (AlbumMatcher.matchAlbum emptyClient demoAlbum).2 =
      [CatalogCall.searchAlbums "aaaa bbbb" 10, CatalogCall.searchAlbums "aaaa bbbb" 20] ∧
    ¬ (AlbumMatcher.matchAlbum emptyClient demoAlbum).2 = [] := by
  decide

/-- C1 (amended): for the track matcher the claim holds — on every
invocation that was not a verbatim cache hit, the terminal outcome
(matched or unmatched alike) is written to the cache before the result is
returned, and is retrievable under the track's id from the returned cache;
the album and artist matchers perform no cache reads or writes at all, so
for them repeated passes re-issue their catalog calls. -/
theorem c1_track_outcome_cached :
    ∀ (client : TidalClient) (ct : String → String) (flags : CacheFlags) (now : Nat)
      (cache : Cache) (t : SpotifyTrack) (incl : Bool) (r : TrackMatchResult)
      (c2 : Cache) (calls : List CatalogCall),
      TrackMatcher.checkCache flags cache t = none →
      TrackMatcher.matchTrack client ct flags now cache t incl = .ok (r, c2, calls) →
      c2 = saveMatchEntry cache (TrackMatcher.toCacheEntry r now) ∧
        getMatchByTrackId c2 t.id = some (TrackMatcher.toCacheEntry r now) := by
  intro client ct flags now cache t incl r c2 calls hmiss h
  rcases matchTrack_ok h with ⟨hc, -, -⟩ | ⟨-, -, hM, hcache⟩
  · rw [hmiss] at hc
    simp at hc
  · subst hcache
    obtain ⟨hst, -⟩ := matchFresh_spec hM
    refine ⟨rfl, getMatchByTrackId_save ?_⟩
    simp [TrackMatcher.toCacheEntry, hst]

/-- C1 witness: an unmatched outcome (with suggestions) is persisted before
being returned and is retrievable from the returned cache. -/
theorem c1_track_outcome_cached_witness :
    (TrackMatcher.checkCache ⟨true, true⟩ [] unmatchedTrack = none ∧
      TrackMatcher.matchTrack suggestionClient id ⟨true, true⟩ 0 [] unmatchedTrack true =
        .ok (unmatchedFirstResult,
          saveMatchEntry [] (TrackMatcher.toCacheEntry unmatchedFirstResult 0),
          [CatalogCall.searchTracks "aaaa bbbb" 10, CatalogCall.searchTracks "aaaa bbbb" 20,
            CatalogCall.searchTracks "aaaa bbbb" 5])) ∧
    (saveMatchEntry [] (TrackMatcher.toCacheEntry unmatchedFirstResult 0) =
        saveMatchEntry [] (TrackMatcher.toCacheEntry unmatchedFirstResult 0) ∧
      getMatchByTrackId (saveMatchEntry [] (TrackMatcher.toCacheEntry unmatchedFirstResult 0))
          unmatchedTrack.id = some (TrackMatcher.toCacheEntry unmatchedFirstResult 0)) :=
  ⟨⟨by decide, by decide⟩,
    c1_track_outcome_cached suggestionClient id ⟨true, true⟩ 0 [] unmatchedTrack true
      unmatchedFirstResult (saveMatchEntry [] (TrackMatcher.toCacheEntry unmatchedFirstResult 0))
      [CatalogCall.searchTracks "aaaa bbbb" 10, CatalogCall.searchTracks "aaaa bbbb" 20,
        CatalogCall.searchTracks "aaaa bbbb" 5]
      (by decide) (by decide)⟩

/-- C2 counterexample: with the durable store unavailable (both lookups and
writes rejecting), the batch does not complete with one Result per entity:
the un-caught `saveMatch` rejection propagates out of `matchTrack` and
aborts the whole batch, which returns an error and no results. -/
theorem c2_counterexample :
    TrackMatcher.matchTracks isrcHitClient id ⟨false, false⟩ 0 [isrcTrack] [] =
      .error () := by
  decide

/-- C2 (amended): a cache *lookup* failure is recovered locally —
`checkCache` reports a miss, and the invocation then behaves (in result and
outbound calls) exactly as a run over the empty cache — and with cache
writes succeeding a batch always completes with one Result per input
entity; but a cache *write* failure is not recovered: it rejects the
invocation and aborts the batch. -/
theorem c2_cache_failure_recovery :
    (∀ (flags : CacheFlags) (cache : Cache) (t : SpotifyTrack), flags.lookupOk = false →
        TrackMatcher.checkCache flags cache t = none) ∧
    (∀ (client : TidalClient) (ct : String → String) (now : Nat) (cache : Cache)
        (t : SpotifyTrack) (incl : Bool),
        (TrackMatcher.matchTrack client ct ⟨false, true⟩ now cache t incl).map
            (fun x => (x.1, x.2.2)) =
          (TrackMatcher.matchTrack client ct ⟨true, true⟩ now [] t incl).map
            (fun x => (x.1, x.2.2))) ∧
    (∀ (client : TidalClient) (ct : String → String) (flags : CacheFlags) (now : Nat)
        (cache : Cache) (ts : List SpotifyTrack), flags.saveOk = true →
        ∃ results c2 events,
          TrackMatcher.matchTracks client ct flags now ts cache = .ok (results, c2, events) ∧
          results.length = ts.length) := by
  refine ⟨fun flags cache t h => checkCache_lookupFail h, ?_, ?_⟩
  · intro client ct now cache t incl
    unfold TrackMatcher.matchTrack
    rw [checkCache_lookupFail rfl, checkCache_nil]
    rcases hM : TrackMatcher.matchFresh client ct t incl with ⟨r, calls⟩
    rfl
  · intro client ct flags now cache ts hsave
    exact matchTracksGo_saveOk_ok client ct now ts.length hsave ts 0 cache

/-- C2 witness: with lookups failing but writes succeeding, a one-track
batch completes with exactly one result. -/
theorem c2_cache_failure_recovery_witness :
    (⟨false, true⟩ : CacheFlags).saveOk = true ∧
    (∃ results c2 events,
      TrackMatcher.matchTracks isrcHitClient id ⟨false, true⟩ 0 [isrcTrack] [] =
        .ok (results, c2, events) ∧ results.length = [isrcTrack].length) :=
  ⟨rfl, c2_cache_failure_recovery.2.2 isrcHitClient id ⟨false, true⟩ 0 [] [isrcTrack] rfl⟩

/-- C3 counterexample: an artist matcher exact-name hit carries confidence
1.0, not the fixed 0.99 the claim asserts for every matcher's exact
method. -/
theorem c3_counterexample :
    (ArtistMatcher.matchArtist artistHitClient adeleSpotify).1.method = MatchMethod.exact ∧
    (ArtistMatcher.matchArtist artistHitClient adeleSpotify).1.confidence = 1 ∧
    ¬ (ArtistMatcher.matchArtist artistHitClient adeleSpotify).1.confidence = 0.99 := by
  refine ⟨by decide, by decide, ?_⟩
  have h : (ArtistMatcher.matchArtist artistHitClient adeleSpotify).1.confidence = 1 := by decide
  rw [h]
  norm_num

/-- C3 (amended): exact-method results of the track matcher (when every
exact-method cache entry also carries 0.99, as every engine write ensures)
and of the album matcher have the fixed confidence 0.99; exact-method
results of the artist matcher have the fixed confidence 1.0
In all three cases the value is a constant of the
code, not a computed score. -/
theorem c3_exact_confidence :
    (∀ (client : TidalClient) (ct : String → String) (flags : CacheFlags) (now : Nat)
        (cache : Cache) (t : SpotifyTrack) (incl : Bool) (r : TrackMatchResult)
        (c2 : Cache) (calls : List CatalogCall),
        (∀ e ∈ cache, e.matchMethod = MatchMethod.exact → e.confidence = 0.99) →
        TrackMatcher.matchTrack client ct flags now cache t incl = .ok (r, c2, calls) →
        r.method = MatchMethod.exact → r.confidence = 0.99) ∧
    (∀ (client : TidalClient) (a : SpotifyAlbum),
        (AlbumMatcher.matchAlbum client a).1.method = MatchMethod.exact →
        (AlbumMatcher.matchAlbum client a).1.confidence = 0.99) ∧
    (∀ (client : TidalClient) (a : SpotifyArtist),
        (ArtistMatcher.matchArtist client a).1.method = MatchMethod.exact →
        (ArtistMatcher.matchArtist client a).1.confidence = 1) := by
  refine ⟨?_, ?_, ?_⟩
  · intro client ct flags now cache t incl r c2 calls hcache h hm
    rcases matchTrack_ok h with ⟨hc, -, -⟩ | ⟨-, -, hM, -⟩
    · obtain ⟨e, hmem, hre⟩ := checkCache_some hc
      subst hre
      exact hcache e hmem hm
    · obtain ⟨-, hshape⟩ := matchFresh_spec hM
      rcases hshape with ⟨-, -, -, ⟨hmm, -⟩ | ⟨-, hcf⟩ | ⟨hmm, -⟩⟩ | ⟨-, -, hmm, -⟩
      · exact absurd (hm.symm.trans hmm) (by decide)
      · exact hcf
      · exact absurd (hm.symm.trans hmm) (by decide)
      · exact absurd (hm.symm.trans hmm) (by decide)
  · intro client a hm
    rcases (matchAlbum_spec client a).2 with ⟨-, -, ⟨-, hcf⟩ | ⟨hmm, -⟩⟩ | ⟨-, -, hmm, -⟩
    · exact hcf
    · exact absurd (hm.symm.trans hmm) (by decide)
    · exact absurd (hm.symm.trans hmm) (by decide)
  · intro client a hm
    rcases (matchArtist_spec client a).2 with ⟨-, -, ⟨-, hcf⟩ | ⟨hmm, -⟩⟩ | ⟨-, -, hmm, -⟩
    · exact hcf
    · exact absurd (hm.symm.trans hmm) (by decide)
    · exact absurd (hm.symm.trans hmm) (by decide)

/-- C3 witness: a concrete exact-tier track match with confidence 0.99. -/
theorem c3_exact_confidence_witness :
    ((∀ e ∈ ([] : Cache), e.matchMethod = MatchMethod.exact → e.confidence = 0.99) ∧
      TrackMatcher.matchTrack exactHitClient id ⟨true, true⟩ 0 [] exactTrack true =
        .ok (exactMatchResultDemo,
          saveMatchEntry [] (TrackMatcher.toCacheEntry exactMatchResultDemo 0),
          [CatalogCall.searchTracks "abcd efgh" 10]) ∧
      exactMatchResultDemo.method = MatchMethod.exact) ∧
    exactMatchResultDemo.confidence = 0.99 :=
  ⟨⟨fun e he => absurd he (List.not_mem_nil e), by rfl, by rfl⟩,
    c3_exact_confidence.1 exactHitClient id ⟨true, true⟩ 0 [] exactTrack true
      exactMatchResultDemo (saveMatchEntry [] (TrackMatcher.toCacheEntry exactMatchResultDemo 0))
      [CatalogCall.searchTracks "abcd efgh" 10]
      (fun e he => absurd he (List.not_mem_nil e)) (by rfl) (by rfl)⟩

/-- C4 counterexample: for a track left unmatched with a nonempty
suggestion list, the second invocation (with the cache populated by the
first) issues zero catalog calls but returns a Result that is *not*
byte-identical to the first: the suggestions are dropped, because the cache
entry does not store them. -/
theorem c4_counterexample :
    TrackMatcher.matchTrack suggestionClient id ⟨true, true⟩ 0 [] unmatchedTrack true =
      .ok (unmatchedFirstResult,
        saveMatchEntry [] (TrackMatcher.toCacheEntry unmatchedFirstResult 0),
        [CatalogCall.searchTracks "aaaa bbbb" 10, CatalogCall.searchTracks "aaaa bbbb" 20,
          CatalogCall.searchTracks "aaaa bbbb" 5]) ∧
    TrackMatcher.matchTrack suggestionClient id ⟨true, true⟩ 0
        (saveMatchEntry [] (TrackMatcher.toCacheEntry unmatchedFirstResult 0))
        unmatchedTrack true =
      .ok ({ unmatchedFirstResult with suggestions := none },
        saveMatchEntry [] (TrackMatcher.toCacheEntry unmatchedFirstResult 0), []) ∧
    ¬ ({ unmatchedFirstResult with suggestions := none } = unmatchedFirstResult) := by
  decide

/-- C4 (amended): for every track, matching a second time after any
successful first invocation issues zero catalog calls, leaves the cache
unchanged, and returns the first Result with its suggestions stripped — so
the second Result is byte-identical to the first exactly when the first
carried no suggestions (matched results and suggestion-free unmatched
results); album and artist matchers have no cache, so for them no cache
ever becomes populated. -/
theorem c4_second_pass_cached :
    ∀ (client : TidalClient) (ct : String → String) (now now2 : Nat) (cache : Cache)
      (t : SpotifyTrack) (incl incl2 : Bool) (r1 : TrackMatchResult) (c1 : Cache)
      (calls1 : List CatalogCall),
      TrackMatcher.matchTrack client ct ⟨true, true⟩ now cache t incl = .ok (r1, c1, calls1) →
      TrackMatcher.matchTrack client ct ⟨true, true⟩ now2 c1 t incl2 =
        .ok ({ r1 with suggestions := none }, c1, []) := by
  intro client ct now now2 cache t incl incl2 r1 c1 calls1 h
  unfold TrackMatcher.matchTrack
  rw [matchTrack_populates h]

/-- C4 witness: a matched (ISRC) track run twice; the second pass is a pure
cache hit with zero calls and the identical Result. -/
theorem c4_second_pass_cached_witness :
    TrackMatcher.matchTrack isrcHitClient id ⟨true, true⟩ 0 [] isrcTrack true =
      .ok (isrcMatchResult, saveMatchEntry [] (TrackMatcher.toCacheEntry isrcMatchResult 0),
        [CatalogCall.getTrackByISRC "USRC17607839"]) ∧
    TrackMatcher.matchTrack isrcHitClient id ⟨true, true⟩ 5
        (saveMatchEntry [] (TrackMatcher.toCacheEntry isrcMatchResult 0)) isrcTrack true =
      .ok ({ isrcMatchResult with suggestions := none },
        saveMatchEntry [] (TrackMatcher.toCacheEntry isrcMatchResult 0), []) :=
  ⟨by decide,
    c4_second_pass_cached isrcHitClient id 0 5 [] isrcTrack true true isrcMatchResult
      (saveMatchEntry [] (TrackMatcher.toCacheEntry isrcMatchResult 0))
      [CatalogCall.getTrackByISRC "USRC17607839"] (by decide)⟩

/-- C5 counterexample: in a one-track batch, the progress callback event
(index 1, total 1, label) is emitted *before* the entity's match completes —
the event trace opens with the progress event and the completion follows it
— so at the moment the callback fires the match result does not yet exist,
contradicting the claimed after-completion callback. -/
theorem c5_counterexample :
    (TrackMatcher.matchTracks isrcHitClient id ⟨true, true⟩ 7 [isrcTrack] []).map
        (fun x => x.2.2) =
      .ok [BatchEvent.progress 1 1 (some "cccc"), BatchEvent.completed 0 isrcMatchResult] := by
  decide

/-- C5 (amended): batch processing is strictly in input order and returns
one result per entity, and the progress callback is invoked *before* each
entity is processed — carrying the one-based index of the entity about to
be processed, the total count, and (for tracks) that entity's name; the
event trace is exactly progress-then-completion for each entity in input
order.  The album (and artist) batch drivers behave identically, without a
label. -/
theorem c5_batch_order :
    (∀ (client : TidalClient) (ct : String → String) (now : Nat) (cache : Cache)
        (ts : List SpotifyTrack) (results : List TrackMatchResult) (c2 : Cache)
        (events : List (BatchEvent TrackMatchResult)),
        TrackMatcher.matchTracks client ct ⟨true, true⟩ now ts cache =
          .ok (results, c2, events) →
        results.length = ts.length ∧ events = expectedTrackEvents ts.length 0 ts results) ∧
    (∀ (client : TidalClient) (as_ : List SpotifyAlbum),
        (AlbumMatcher.matchAlbums client as_).1.length = as_.length ∧
        (AlbumMatcher.matchAlbums client as_).2 =
          expectedAlbumEvents as_.length 0 as_ (AlbumMatcher.matchAlbums client as_).1) := by
  constructor
  · intro client ct now cache ts results c2 events h
    exact matchTracksGo_spec ts 0 cache results c2 events h
  · intro client as_
    exact matchAlbumsGo_spec as_ 0

/-- C5 witness: the concrete one-track batch trace. -/
theorem c5_batch_order_witness :
    TrackMatcher.matchTracks isrcHitClient id ⟨true, true⟩ 0 [isrcTrack] [] =
      .ok ([isrcMatchResult], saveMatchEntry [] (TrackMatcher.toCacheEntry isrcMatchResult 0),
        [BatchEvent.progress 1 1 (some "cccc"), BatchEvent.completed 0 isrcMatchResult]) ∧
    ([isrcMatchResult].length = [isrcTrack].length ∧
      [BatchEvent.progress 1 1 (some "cccc"), BatchEvent.completed 0 isrcMatchResult] =
        expectedTrackEvents [isrcTrack].length 0 [isrcTrack] [isrcMatchResult]) :=
  ⟨by decide,
    c5_batch_order.1 isrcHitClient id 0 [] [isrcTrack] [isrcMatchResult]
      (saveMatchEntry [] (TrackMatcher.toCacheEntry isrcMatchResult 0))
      [BatchEvent.progress 1 1 (some "cccc"), BatchEvent.completed 0 isrcMatchResult]
      (by decide)⟩

end Spotify2Tidal
